import Mathlib

/-!
Verification of the agent-optic session ingestion and aggregation engine.

The TypeScript sources are shallowly embedded: each JSONL file is a list of
lines, where a line is `none` when blank or unparseable (both tiers skip such
lines after the same deterministic `JSON.parse`), and `some e` when it parses
to the record the source destructures.  JavaScript numbers appearing as token
counters and millisecond timestamps are modelled as `Int`; the hour estimate
(a quotient of integers) is modelled as `ℚ`.
-/

namespace AgentOptic

/-! ## Core data model (src/types, as used by the readers) -/

/-- Session time range; `stop` models the TS field `end` (a Lean keyword). -/
structure TimeRange where
  start : Int
  stop : Int
  deriving Repr, DecidableEq

/-- Minimal session identity from the index tier (src/types/session.ts `SessionInfo`). -/
structure SessionInfo where
  sessionId : String
  project : String
  projectName : String
  prompts : List String
  promptTimestamps : List Int
  timeRange : TimeRange
  deriving Repr, DecidableEq

/-! ## Elapsed-time estimator (src/aggregations/time.ts) -/

/-- Gap cap in ms (src/aggregations/time.ts `GAP_CAP_MS`). -/
def GAP_CAP_MS : Int := 15 * 60 * 1000

/-- The per-session timestamp selection inside `estimateHours`:
prompt timestamps when present, otherwise the positive endpoints of the range. -/
def sessionTimestamps (s : SessionInfo) : List Int :=
  if s.promptTimestamps.length > 0 then s.promptTimestamps
  else [s.timeRange.start, s.timeRange.stop].filter (fun t => 0 < t)

/-- JS `Array.prototype.sort((a, b) => a - b)`: an ascending sorted permutation.
Over `Int` any two sorted permutations of the same list are equal, so
insertion sort is an exact model of the observable result. -/
def sortAsc (l : List Int) : List Int := l.insertionSort (· ≤ ·)

/-- The capped-gap accumulation loop of `estimateHours`:
sum over consecutive pairs of `min (gap) GAP_CAP_MS`. -/
def gapSum (l : List Int) : Int :=
  ((l.zip l.tail).map (fun p => min (p.2 - p.1) GAP_CAP_MS)).sum

/-- src/aggregations/time.ts `estimateHours`. -/
def estimateHours (sessions : List SessionInfo) : ℚ :=
  if sessions.length = 0 then 0
  else
    let allTimestamps := (sessions.map sessionTimestamps).flatten
    if allTimestamps.length = 0 then 0
    else
      let sorted := sortAsc allTimestamps
      if sorted.length = 1 then 5 / 60
      else ((gapSum sorted : Int) : ℚ) / (1000 * 60 * 60)

/-- JS `Math.min(...l)` over a nonempty spread (default 0 for the unreachable empty case). -/
def listMin : List Int → Int
  | [] => 0
  | a :: t => t.foldl min a

/-- JS `Math.max(...l)` over a nonempty spread (default 0 for the unreachable empty case). -/
def listMax : List Int → Int
  | [] => 0
  | a :: t => t.foldl max a

/-! ### Support lemmas for the estimator -/

theorem foldl_min_facts (t : List Int) (a : Int) :
    (t.foldl min a ≤ a ∧ ∀ x ∈ t, t.foldl min a ≤ x) ∧
      (t.foldl min a = a ∨ t.foldl min a ∈ t) := by
  induction t generalizing a with
  | nil => simp
  | cons b t ih =>
    have h := ih (min a b)
    simp only [List.foldl_cons]
    refine ⟨⟨le_trans h.1.1 (min_le_left a b), ?_⟩, ?_⟩
    · intro x hx
      rcases List.mem_cons.mp hx with rfl | hx
      · exact le_trans h.1.1 (min_le_right _ _)
      · exact h.1.2 x hx
    · rcases h.2 with h2 | h2
      · rcases le_total a b with hab | hab
        · left; rw [h2, min_eq_left hab]
        · right; rw [h2, min_eq_right hab]; exact List.mem_cons_self b t
      · right; exact List.mem_cons_of_mem b h2

theorem foldl_max_facts (t : List Int) (a : Int) :
    (a ≤ t.foldl max a ∧ ∀ x ∈ t, x ≤ t.foldl max a) ∧
      (t.foldl max a = a ∨ t.foldl max a ∈ t) := by
  induction t generalizing a with
  | nil => simp
  | cons b t ih =>
    have h := ih (max a b)
    simp only [List.foldl_cons]
    refine ⟨⟨le_trans (le_max_left a b) h.1.1, ?_⟩, ?_⟩
    · intro x hx
      rcases List.mem_cons.mp hx with rfl | hx
      · exact le_trans (le_max_right _ _) h.1.1
      · exact h.1.2 x hx
    · rcases h.2 with h2 | h2
      · rcases le_total a b with hab | hab
        · right; rw [h2, max_eq_right hab]; exact List.mem_cons_self b t
        · left; rw [h2, max_eq_left hab]
      · right; exact List.mem_cons_of_mem b h2

theorem listMin_le (l : List Int) : ∀ x ∈ l, listMin l ≤ x := by
  cases l with
  | nil => simp
  | cons a t =>
    intro x hx
    rcases List.mem_cons.mp hx with rfl | hx
    · exact (foldl_min_facts t _).1.1
    · exact (foldl_min_facts t a).1.2 x hx

theorem listMin_mem (l : List Int) (h : l ≠ []) : listMin l ∈ l := by
  cases l with
  | nil => exact absurd rfl h
  | cons a t =>
    rcases (foldl_min_facts t a).2 with h2 | h2
    · rw [listMin, h2]; exact List.mem_cons_self a t
    · exact List.mem_cons_of_mem a h2

theorem le_listMax (l : List Int) : ∀ x ∈ l, x ≤ listMax l := by
  cases l with
  | nil => simp
  | cons a t =>
    intro x hx
    rcases List.mem_cons.mp hx with rfl | hx
    · exact (foldl_max_facts t _).1.1
    · exact (foldl_max_facts t a).1.2 x hx

theorem listMax_mem (l : List Int) (h : l ≠ []) : listMax l ∈ l := by
  cases l with
  | nil => exact absurd rfl h
  | cons a t =>
    rcases (foldl_max_facts t a).2 with h2 | h2
    · rw [listMax, h2]; exact List.mem_cons_self a t
    · exact List.mem_cons_of_mem a h2

theorem sortAsc_perm (l : List Int) : List.Perm (sortAsc l) l :=
  List.perm_insertionSort (· ≤ ·) l

theorem sortAsc_sorted (l : List Int) : (sortAsc l).Sorted (· ≤ ·) :=
  List.sorted_insertionSort (· ≤ ·) l

theorem sorted_head_le {l : List Int} (hs : l.Sorted (· ≤ ·)) :
    ∀ x ∈ l, l.head?.getD 0 ≤ x := by
  cases l with
  | nil => simp
  | cons a t =>
    intro x hx
    rcases List.mem_cons.mp hx with hx | hx
    · subst hx; simp
    · simpa using (List.sorted_cons.mp hs).1 x hx

theorem sorted_le_getLast {l : List Int} (hs : l.Sorted (· ≤ ·)) :
    ∀ x ∈ l, x ≤ l.getLast?.getD 0 := by
  induction l with
  | nil => simp
  | cons a t ih =>
    intro x hx
    cases t with
    | nil =>
      have hxa : x = a := List.mem_singleton.mp hx
      subst hxa
      simp
    | cons b t2 =>
      have hs2 : (b :: t2).Sorted (· ≤ ·) := (List.sorted_cons.mp hs).2
      rw [List.getLast?_cons_cons]
      rcases List.mem_cons.mp hx with hx | hx
      · subst hx
        calc x ≤ b := (List.sorted_cons.mp hs).1 b (by simp)
          _ ≤ (b :: t2).getLast?.getD 0 := ih hs2 b (by simp)
      · exact ih hs2 x hx

theorem getLastD_mem (l : List Int) (h : l ≠ []) : l.getLast?.getD 0 ∈ l := by
  induction l with
  | nil => exact absurd rfl h
  | cons a t ih =>
    cases t with
    | nil => simp
    | cons b t2 =>
      rw [List.getLast?_cons_cons]
      exact List.mem_cons_of_mem a (ih (by simp))

theorem sortAsc_head_eq_listMin (l : List Int) (h : l ≠ []) :
    (sortAsc l).head?.getD 0 = listMin l := by
  have hperm := sortAsc_perm l
  have hne : sortAsc l ≠ [] := by
    intro hnil
    rw [hnil] at hperm
    exact h hperm.symm.eq_nil
  have hmem : (sortAsc l).head?.getD 0 ∈ sortAsc l := by
    cases hsa : sortAsc l with
    | nil => exact absurd hsa hne
    | cons a t => simp
  have h1 : listMin l ≤ (sortAsc l).head?.getD 0 :=
    listMin_le l _ (hperm.mem_iff.mp hmem)
  have h2 : (sortAsc l).head?.getD 0 ≤ listMin l :=
    sorted_head_le (sortAsc_sorted l) _ (hperm.mem_iff.mpr (listMin_mem l h))
  exact le_antisymm h2 h1

theorem sortAsc_getLast_eq_listMax (l : List Int) (h : l ≠ []) :
    (sortAsc l).getLast?.getD 0 = listMax l := by
  have hperm := sortAsc_perm l
  have hne : sortAsc l ≠ [] := by
    intro hnil
    rw [hnil] at hperm
    exact h hperm.symm.eq_nil
  have hmem : (sortAsc l).getLast?.getD 0 ∈ sortAsc l := getLastD_mem _ hne
  have h1 : (sortAsc l).getLast?.getD 0 ≤ listMax l :=
    le_listMax l _ (hperm.mem_iff.mp hmem)
  have h2 : listMax l ≤ (sortAsc l).getLast?.getD 0 :=
    sorted_le_getLast (sortAsc_sorted l) _ (hperm.mem_iff.mpr (listMax_mem l h))
  exact le_antisymm h1 h2

/-- The capped gap sum telescopes to `last - first` when no gap exceeds the cap. -/
theorem gapSum_eq_sub (l : List Int)
    (hcap : ∀ p ∈ l.zip l.tail, p.2 - p.1 ≤ GAP_CAP_MS) :
    gapSum l = l.getLast?.getD 0 - l.head?.getD 0 := by
  induction l with
  | nil => simp [gapSum]
  | cons a t ih =>
    cases t with
    | nil => simp [gapSum]
    | cons b t2 =>
      have hstep : gapSum (a :: b :: t2) = min (b - a) GAP_CAP_MS + gapSum (b :: t2) := by
        simp [gapSum]
      have hab : b - a ≤ GAP_CAP_MS := hcap (a, b) (by simp)
      have ih2 := ih (fun p hp => by
        refine hcap p ?_
        have hz : (a :: b :: t2).zip (a :: b :: t2).tail =
            (a, b) :: (b :: t2).zip (b :: t2).tail := by simp
        rw [hz]
        exact List.mem_cons_of_mem _ hp)
      rw [hstep, min_eq_left hab, ih2, List.getLast?_cons_cons]
      simp only [List.head?_cons, Option.getD_some]
      ring

theorem listMin_append (l1 l2 : List Int) (h1 : l1 ≠ []) (h2 : l2 ≠ []) :
    listMin (l1 ++ l2) = min (listMin l1) (listMin l2) := by
  have hne : l1 ++ l2 ≠ [] := by simp [h1]
  apply le_antisymm
  · apply le_min
    · exact listMin_le (l1 ++ l2) _ (List.mem_append_left l2 (listMin_mem l1 h1))
    · exact listMin_le (l1 ++ l2) _ (List.mem_append_right l1 (listMin_mem l2 h2))
  · rcases List.mem_append.mp (listMin_mem (l1 ++ l2) hne) with hm | hm
    · exact le_trans (min_le_left _ _) (listMin_le l1 _ hm)
    · exact le_trans (min_le_right _ _) (listMin_le l2 _ hm)

theorem listMax_append (l1 l2 : List Int) (h1 : l1 ≠ []) (h2 : l2 ≠ []) :
    listMax (l1 ++ l2) = max (listMax l1) (listMax l2) := by
  have hne : l1 ++ l2 ≠ [] := by simp [h1]
  apply le_antisymm
  · rcases List.mem_append.mp (listMax_mem (l1 ++ l2) hne) with hm | hm
    · exact le_trans (le_listMax l1 _ hm) (le_max_left _ _)
    · exact le_trans (le_listMax l2 _ hm) (le_max_right _ _)
  · apply max_le
    · exact le_listMax (l1 ++ l2) _ (List.mem_append_left l2 (listMax_mem l1 h1))
    · exact le_listMax (l1 ++ l2) _ (List.mem_append_right l1 (listMax_mem l2 h2))

/-! ### Claims C3 and C4 about the estimator -/

/-- Claim C4: `estimateHours` on a single session with exactly two prompt
timestamps returns the inter-prompt gap in hours when the gap does not exceed
the 15-minute cap (so 5 minutes apart yields 5/60 h), and the capped value
15/60 hours when the gap exceeds the cap (40 minutes apart). -/
theorem c4_estimateHours_two_prompts (s : SessionInfo) (t1 t2 : Int)
    (hts : s.promptTimestamps = [t1, t2]) (hle : t1 ≤ t2) :
    (t2 - t1 ≤ 900000 → estimateHours [s] = ((t2 - t1 : Int) : ℚ) / 3600000) ∧
    (900000 < t2 - t1 → estimateHours [s] = 15 / 60) := by
  have hsort : sortAsc [t1, t2] = [t1, t2] := by
    simp [sortAsc, List.insertionSort, List.orderedInsert, hle]
  have hmain : estimateHours [s] = ((min (t2 - t1) 900000 : Int) : ℚ) / 3600000 := by
    unfold estimateHours
    simp [sessionTimestamps, hts, hsort, gapSum, GAP_CAP_MS]
    norm_num
  constructor
  · intro hgap
    rw [hmain, min_eq_left hgap]
  · intro hgap
    rw [hmain, min_eq_right (le_of_lt hgap)]
    norm_num

/-- A concrete session with two prompts 5 minutes apart. -/
def sessGap5 : SessionInfo :=
  { sessionId := "a1", project := "/tmp/p", projectName := "p",
    prompts := ["q1", "q2"], promptTimestamps := [0, 300000],
    timeRange := { start := 0, stop := 300000 } }

/-- A concrete session with two prompts 40 minutes apart. -/
def sessGap40 : SessionInfo :=
  { sessionId := "a2", project := "/tmp/p", projectName := "p",
    prompts := ["q1", "q2"], promptTimestamps := [0, 2400000],
    timeRange := { start := 0, stop := 2400000 } }

/-- Witness for C4 at the spec's concrete inputs: 5-minute gap gives
300000 ms / 3600000 = 5/60 h, 40-minute gap gives 15/60 h. -/
theorem c4_estimateHours_two_prompts_witness :
    estimateHours [sessGap5] = ((300000 - 0 : Int) : ℚ) / 3600000 ∧
    estimateHours [sessGap40] = 15 / 60 :=
  ⟨(c4_estimateHours_two_prompts sessGap5 0 300000 rfl (by decide)).1 (by decide),
   (c4_estimateHours_two_prompts sessGap40 0 2400000 rfl (by decide)).2 (by decide)⟩

/-- Claim C3 (amended): for two sessions whose timestamp ranges fully overlap
(identical ranges), whose ranges are the min/max of their prompt timestamps,
whose merged sorted timeline has no gap exceeding the 15-minute cap, and whose
common span is positive, `estimateHours` returns the duration of the union of
the two ranges, strictly less than the sum of the two individual spans. -/
theorem c3_estimateHours_full_overlap (s1 s2 : SessionInfo)
    (h1 : s1.promptTimestamps ≠ []) (h2 : s2.promptTimestamps ≠ [])
    (hr1s : s1.timeRange.start = listMin s1.promptTimestamps)
    (hr1e : s1.timeRange.stop = listMax s1.promptTimestamps)
    (hr2s : s2.timeRange.start = listMin s2.promptTimestamps)
    (hr2e : s2.timeRange.stop = listMax s2.promptTimestamps)
    (hfull : s1.timeRange = s2.timeRange)
    (hpos : s1.timeRange.start < s1.timeRange.stop)
    (hcap : ∀ p ∈ (sortAsc (s1.promptTimestamps ++ s2.promptTimestamps)).zip
        (sortAsc (s1.promptTimestamps ++ s2.promptTimestamps)).tail,
        p.2 - p.1 ≤ GAP_CAP_MS) :
    estimateHours [s1, s2] =
        ((s1.timeRange.stop - s1.timeRange.start : Int) : ℚ) / 3600000 ∧
    estimateHours [s1, s2] <
        ((s1.timeRange.stop - s1.timeRange.start : Int) : ℚ) / 3600000 +
        ((s2.timeRange.stop - s2.timeRange.start : Int) : ℚ) / 3600000 := by
  set T := s1.promptTimestamps ++ s2.promptTimestamps with hT
  have hTne : T ≠ [] := by simp [hT, h1]
  have hlen1 : 1 ≤ s1.promptTimestamps.length := List.length_pos.mpr h1
  have hlen2 : 1 ≤ s2.promptTimestamps.length := List.length_pos.mpr h2
  have hTlen : 2 ≤ T.length := by
    rw [hT, List.length_append]; omega
  have hsortlen : (sortAsc T).length = T.length := (sortAsc_perm T).length_eq
  have hmin : listMin T = s1.timeRange.start := by
    rw [hT, listMin_append _ _ h1 h2, ← hr1s, ← hr2s, ← hfull, min_self]
  have hmax : listMax T = s1.timeRange.stop := by
    rw [hT, listMax_append _ _ h1 h2, ← hr1e, ← hr2e, ← hfull, max_self]
  have hgapsum : gapSum (sortAsc T) = s1.timeRange.stop - s1.timeRange.start := by
    rw [gapSum_eq_sub _ hcap, sortAsc_getLast_eq_listMax _ hTne,
      sortAsc_head_eq_listMin _ hTne, hmin, hmax]
  have hts1 : sessionTimestamps s1 = s1.promptTimestamps := by
    unfold sessionTimestamps
    exact if_pos hlen1
  have hts2 : sessionTimestamps s2 = s2.promptTimestamps := by
    unfold sessionTimestamps
    exact if_pos hlen2
  have hval : estimateHours [s1, s2] =
      ((s1.timeRange.stop - s1.timeRange.start : Int) : ℚ) / 3600000 := by
    unfold estimateHours
    have hflat : ([s1, s2].map sessionTimestamps).flatten = T := by
      simp [hts1, hts2, hT]
    rw [if_neg (by simp)]
    simp only [hflat]
    rw [if_neg (by
      intro hzero
      rw [List.length_eq_zero] at hzero
      exact hTne hzero)]
    rw [if_neg (by omega), hgapsum]
    norm_num
  refine ⟨hval, ?_⟩
  rw [hval]
  have hspan2 : s2.timeRange.stop - s2.timeRange.start =
      s1.timeRange.stop - s1.timeRange.start := by rw [← hfull]
  rw [hspan2]
  have hposq : (0 : ℚ) < ((s1.timeRange.stop - s1.timeRange.start : Int) : ℚ) / 3600000 := by
    apply div_pos
    · exact_mod_cast Int.sub_pos.mpr hpos
    · norm_num
  linarith

/-- A concrete session spanning 100 minutes (two prompts at its endpoints). -/
def sessOverlapA : SessionInfo :=
  { sessionId := "o1", project := "/tmp/p", projectName := "p",
    prompts := ["x", "y"], promptTimestamps := [0, 6000000],
    timeRange := { start := 0, stop := 6000000 } }

/-- A second session with the identical 100-minute range. -/
def sessOverlapB : SessionInfo :=
  { sessionId := "o2", project := "/tmp/p", projectName := "p",
    prompts := ["x", "y"], promptTimestamps := [0, 6000000],
    timeRange := { start := 0, stop := 6000000 } }

/-- Claim C3 counterexample: two sessions with identical (hence fully
overlapping) 100-minute ranges.  The union of the two ranges lasts
6000000 ms = 5/3 h, but `estimateHours` returns 1/4 h because the inner
100-minute gap is capped at 15 minutes, so the claim's "returns the duration
of the union" fails on the code. -/
theorem c3_estimateHours_full_overlap_cex :
    estimateHours [sessOverlapA, sessOverlapB] = 1 / 4 ∧
      (1 : ℚ) / 4 ≠ ((6000000 - 0 : Int) : ℚ) / 3600000 := by
  constructor
  · norm_num [estimateHours, sessionTimestamps, sessOverlapA, sessOverlapB,
      sortAsc, List.insertionSort, List.orderedInsert, gapSum, GAP_CAP_MS]
  · norm_num

/-- A session with two prompts ten minutes apart, for the amended C3 witness. -/
def c3WitA : SessionInfo :=
  { sessionId := "w1", project := "/tmp/p", projectName := "p",
    prompts := ["x", "y"], promptTimestamps := [0, 600000],
    timeRange := { start := 0, stop := 600000 } }

/-- A second session with the identical ten-minute range. -/
def c3WitB : SessionInfo :=
  { sessionId := "w2", project := "/tmp/p", projectName := "p",
    prompts := ["x", "y"], promptTimestamps := [0, 600000],
    timeRange := { start := 0, stop := 600000 } }

/-- Witness for the amended C3 at two concrete ten-minute sessions with
identical ranges and every merged gap below the cap. -/
theorem c3_estimateHours_full_overlap_witness :
    estimateHours [c3WitA, c3WitB] =
        ((c3WitA.timeRange.stop - c3WitA.timeRange.start : Int) : ℚ) / 3600000 ∧
    estimateHours [c3WitA, c3WitB] <
        ((c3WitA.timeRange.stop - c3WitA.timeRange.start : Int) : ℚ) / 3600000 +
        ((c3WitB.timeRange.stop - c3WitB.timeRange.start : Int) : ℚ) / 3600000 :=
  c3_estimateHours_full_overlap c3WitA c3WitB (by decide) (by decide) (by decide)
    (by decide) (by decide) (by decide) (by decide) (by decide) (by decide)

/-! ## Canonical transcript model (src/types/transcript.ts via its uses) -/

/-- Tool category (src/types, §3 ToolCallSummary). -/
inductive ToolCategory
  | file_read | file_write | shell | search | web | task | other
  deriving Repr, DecidableEq

/-- A JSON value inside a parsed tool-argument object, as far as the code
inspects it: either a string or anything else. -/
inductive ArgVal
  | str (s : String)
  | other
  deriving Repr, DecidableEq

/-- A parsed JSON object of tool arguments (key/value association list). -/
abbrev ToolArgs := List (String × ArgVal)

/-- One distinct tool invocation (src/types, §3 ToolCallSummary). -/
structure ToolCallSummary where
  name : String
  displayName : String
  category : ToolCategory
  target : Option String
  deriving Repr, DecidableEq

/-- A content block of a message (closed variant set per §3; `other` stands
for block types the code does not inspect). -/
inductive ContentBlock
  | text (t : String)
  | thinking (t : String)
  | toolUse (name : String) (input : Option ToolArgs)
  | other
  deriving Repr, DecidableEq

/-- The `content` field of a message: a string, a block array, or absent. -/
inductive MsgContent
  | str (s : String)
  | blocks (bs : List ContentBlock)
  | absent
  deriving Repr, DecidableEq

/-- JS truthiness of a `content` value (empty string falsy, arrays truthy). -/
def MsgContent.truthy : MsgContent → Bool
  | .str s => s ≠ ""
  | .blocks _ => true
  | .absent => false

/-- Token usage of a Format A message. -/
structure Usage where
  input_tokens : Option Int
  output_tokens : Option Int
  cache_creation_input_tokens : Option Int
  cache_read_input_tokens : Option Int
  deriving Repr, DecidableEq

/-- The `message` object of a transcript entry. -/
structure Message where
  role : String
  content : MsgContent
  model : Option String
  usage : Option Usage
  deriving Repr, DecidableEq

/-- One normalized conversation event (§3 TranscriptEntry; also the parsed
shape of one Format A session-file line). -/
structure TranscriptEntry where
  timestamp : Option String
  message : Option Message
  toolUseResult : Option String
  gitBranch : Option String
  isSidechain : Bool
  planContent : Option String
  deriving Repr, DecidableEq

/-- JS truthiness of an optional string (undefined and "" falsy). -/
def strTruthy : Option String → Bool
  | some s => s ≠ ""
  | none => false

/-- JS falsiness of an optional string variable (`!x`). -/
def jsFalsyStr (o : Option String) : Bool :=
  o = none ∨ o = some ""

/-- Resolved redaction policy (§3 PrivacyConfig; field names per their uses in
the sources: `redactPrompts`, `redactPatterns`, `redactHomeDir`). -/
structure PrivacyConfig where
  excludeProjects : List String
  redactToolResults : Bool
  redactThinking : Bool
  redactPaths : Bool
  redactHomeDir : Bool
  redactPrompts : Bool
  redactPatterns : List String
  deriving Repr, DecidableEq

/-- Modelled from the spec: `redactString` of src/privacy/redact.ts is not
among the given sources.  Per §4.4, field-level redaction replaces matched
spans with a fixed placeholder, preserving structure; the matched span classes
are represented by the resolved pattern list of the configuration. -/
def redactString (s : String) (cfg : PrivacyConfig) : String :=
  cfg.redactPatterns.foldl (fun acc p => acc.replace p "[redacted]") s

/-- Redaction of one content block (see `filterTranscriptEntry`). -/
def filterContentBlock (cfg : PrivacyConfig) : ContentBlock → ContentBlock
  | .text t => .text (redactString t cfg)
  | .thinking t =>
      if cfg.redactThinking then .thinking "[redacted]"
      else .thinking (redactString t cfg)
  | .toolUse n i => .toolUse n i
  | .other => .other

/-- Redaction of a message content value (see `filterTranscriptEntry`). -/
def filterMsgContent (cfg : PrivacyConfig) : MsgContent → MsgContent
  | .str s => .str (redactString s cfg)
  | .blocks bs => .blocks (bs.map (filterContentBlock cfg))
  | .absent => .absent

/-- Modelled from the spec: `filterTranscriptEntry` of src/privacy/redact.ts
is not among the given sources.  Per §4.4 it is a pure transform from (entry,
config) to a redacted entry or null, null meaning project-level suppression;
the owning project path is session-level data and not a field of the
canonical entry (§6, Format A row), so at entry level the transform redacts
fields and never suppresses: tool-result bodies and thinking contents are
stripped when the profile says so, text spans go through `redactString`, and
structure — in particular `message.role` and `message.usage` — is
preserved. -/
def filterTranscriptEntry (e : TranscriptEntry) (cfg : PrivacyConfig) :
    Option TranscriptEntry :=
  some { e with
    toolUseResult :=
      if cfg.redactToolResults then e.toolUseResult.map (fun _ => "[redacted]")
      else e.toolUseResult.map (fun s => redactString s cfg)
    message := e.message.map (fun m =>
      { m with content := filterMsgContent cfg m.content }) }

/-! ## Content-block helpers (src/parsers) -/

/-- JSON access `typeof input[k] === "string" && input[k].length > 0`. -/
def strArg (input : Option ToolArgs) (k : String) : Option String :=
  match input with
  | none => none
  | some args =>
    match args.lookup k with
    | some (.str s) => if s.length > 0 then some s else none
    | _ => none

/-- Character-level split (JS `s.split(sep)` with a one-character separator),
by structural recursion over the characters so that concrete witnesses
evaluate in the kernel. -/
def splitCharAux (sep : Char) : List Char → List (List Char)
  | [] => [[]]
  | c :: cs =>
    match splitCharAux sep cs with
    | [] => [[c]]
    | seg :: segs => if c = sep then [] :: seg :: segs else (c :: seg) :: segs

/-- JS `s.split(sep)` for a one-character separator. -/
def splitChar (sep : Char) (s : String) : List String :=
  (splitCharAux sep s.toList).map (fun cs => String.mk cs)

/-- JS `value.split(" ")[0]`. -/
def firstWord (s : String) : String := (splitChar ' ' s).headD ""

/-- Modelled from the spec: `toolDisplayName` of src/parsers/tool-categories.ts
is not among the given sources; the spec constrains it only to be a pure
function of (name, arguments) under which two distinct invocations may render
the same display string.  Modelled as the bare tool name. -/
def toolDisplayName (name : String) (_input : Option ToolArgs) : String := name

/-- Modelled from the spec: `categorizeToolName` of
src/parsers/tool-categories.ts is not among the given sources; §3 fixes the
category set and that the category is a pure function of the name. -/
def categorizeToolName (name : String) : ToolCategory :=
  if name = "Read" ∨ name = "read_file" ∨ name = "NotebookRead" then .file_read
  else if name = "Write" ∨ name = "Edit" ∨ name = "apply_patch" then .file_write
  else if name = "Bash" ∨ name = "exec_command" ∨ name = "shell" then .shell
  else if name = "Grep" ∨ name = "Glob" then .search
  else if name = "WebFetch" ∨ name = "WebSearch" then .web
  else if name = "Task" then .task
  else .other

/-- Modelled from the spec: `extractText` of src/parsers/content-blocks.ts is
not among the given sources.  It extracts the assistant response text from a
content value: the text blocks joined with a newline (mirroring the in-source
`parseCodexMessageText`), a string content verbatim. -/
def extractText : MsgContent → String
  | .str s => s
  | .blocks bs => String.intercalate "\n" (bs.filterMap (fun b =>
      match b with
      | .text t => some t
      | _ => none))
  | .absent => ""

/-- Modelled from the spec: `extractToolCalls` of
src/parsers/content-blocks.ts is not among the given sources.  It yields one
`ToolCallSummary` per tool-use block, with displayName/category/target pure
functions of (name, input). -/
def extractToolCalls : MsgContent → List ToolCallSummary
  | .blocks bs => bs.filterMap (fun b =>
      match b with
      | .toolUse name input => some
          { name := name
            displayName := toolDisplayName name input
            category := categorizeToolName name
            target := ["file_path", "path", "target_file", "notebook_path"].findSome?
              (strArg input) }
      | _ => none)
  | _ => []

/-- Modelled from the spec: `extractFilePaths` of
src/parsers/content-blocks.ts is not among the given sources.  It collects the
file paths named in tool-use inputs. -/
def extractFilePaths : MsgContent → List String
  | .blocks bs => bs.filterMap (fun b =>
      match b with
      | .toolUse _ input =>
          ["file_path", "path", "target_file", "notebook_path"].findSome? (strArg input)
      | _ => none)
  | _ => []

/-- Modelled from the spec: `countThinkingBlocks` of
src/parsers/content-blocks.ts is not among the given sources.  It counts the
thinking blocks of a content value. -/
def countThinkingBlocks : MsgContent → Int
  | .blocks bs => (bs.filter (fun b =>
      match b with
      | .thinking _ => true
      | _ => false)).length
  | _ => 0

/-! ## JS collection semantics -/

/-- JS `Map.prototype.set`: updates the value in place when the key exists
(keeping the position of the first insertion), otherwise appends. -/
def mapSet (m : List (String × ToolCallSummary)) (k : String) (v : ToolCallSummary) :
    List (String × ToolCallSummary) :=
  if m.any (fun p => p.1 = k) then
    m.map (fun p => if p.1 = k then (k, v) else p)
  else m ++ [(k, v)]

/-- JS `Map.prototype.values()` (insertion order). -/
def mapValues (m : List (String × ToolCallSummary)) : List ToolCallSummary :=
  m.map (fun p => p.2)

/-- JS `Set.prototype.add` (insertion order kept, duplicates ignored). -/
def setAdd (s : List String) (x : String) : List String :=
  if x ∈ s then s else s ++ [x]

/-- Adding several values to a JS Set in order. -/
def setAddAll (s : List String) (xs : List String) : List String :=
  xs.foldl setAdd s

/-! ## SessionMeta and SessionDetail (src/types/session.ts) -/

/-- SessionInfo plus lightweight peeked fields (§3 SessionMeta). -/
structure SessionMeta extends SessionInfo where
  totalInputTokens : Int
  totalOutputTokens : Int
  cacheCreationInputTokens : Int
  cacheReadInputTokens : Int
  messageCount : Int
  model : Option String := none
  gitBranch : Option String := none
  totalCost : Option ℚ := none
  deriving Repr, DecidableEq

/-- SessionMeta plus fully parsed fields (§3 SessionDetail). -/
structure SessionDetail extends SessionMeta where
  assistantSummaries : List String
  toolCalls : List ToolCallSummary
  filesReferenced : List String
  planReferenced : Bool
  thinkingBlockCount : Int
  hasSidechains : Bool
  deriving Repr, DecidableEq

/-- The zero-valued `SessionMeta` a peek starts from, also returned whole for
a missing session file. -/
def emptyMeta (session : SessionInfo) : SessionMeta :=
  { toSessionInfo := session
    totalInputTokens := 0
    totalOutputTokens := 0
    cacheCreationInputTokens := 0
    cacheReadInputTokens := 0
    messageCount := 0 }

/-- The zero-valued `SessionDetail` a detail parse starts from, also returned
whole for a missing session file. -/
def emptyDetail (session : SessionInfo) : SessionDetail :=
  { toSessionMeta := emptyMeta session
    assistantSummaries := []
    toolCalls := []
    filesReferenced := []
    planReferenced := false
    thinkingBlockCount := 0
    hasSidechains := false }

/-! ## Format A (claude) peek — src/readers/session-reader.ts
`peekClaudeSession`.  One linear pass; no privacy filtering in this tier. -/

/-- The per-line update of `peekClaudeSession`'s loop. -/
def claudePeekStep (st : SessionMeta) (line : Option TranscriptEntry) : SessionMeta :=
  match line with
  | none => st
  | some entry =>
    let gitBranch :=
      if jsFalsyStr st.gitBranch ∧ strTruthy entry.gitBranch ∧ entry.gitBranch ≠ some "HEAD"
      then entry.gitBranch else st.gitBranch
    let model :=
      if jsFalsyStr st.model ∧ strTruthy (entry.message.bind (fun m => m.model))
      then entry.message.bind (fun m => m.model) else st.model
    let st :=
      match entry.message.bind (fun m => m.usage) with
      | some u =>
        { st with
          totalInputTokens := st.totalInputTokens + u.input_tokens.getD 0
          totalOutputTokens := st.totalOutputTokens + u.output_tokens.getD 0
          cacheCreationInputTokens :=
            st.cacheCreationInputTokens + u.cache_creation_input_tokens.getD 0
          cacheReadInputTokens :=
            st.cacheReadInputTokens + u.cache_read_input_tokens.getD 0 }
      | none => st
    let st :=
      if entry.message.map (fun m => m.role) = some "user" ∨
          entry.message.map (fun m => m.role) = some "assistant"
      then { st with messageCount := st.messageCount + 1 } else st
    { st with gitBranch := gitBranch, model := model }

/-- src/readers/session-reader.ts `peekClaudeSession`, over the parsed lines
of the session file (`none` content for a missing file). -/
def peekClaudeSession (session : SessionInfo)
    (content : Option (List (Option TranscriptEntry))) : SessionMeta :=
  match content with
  | none => emptyMeta session
  | some lines => lines.foldl claudePeekStep (emptyMeta session)

/-! ## Format A (claude) detail — src/parsers/session-detail.ts
`parseClaudeSessionDetail`. -/

/-- Loop state of `parseClaudeSessionDetail`: the accumulating detail plus the
tool-call map, the file set, and the local `gitBranch`/`model` variables. -/
structure ClaudeDetailState where
  d : SessionDetail
  toolCallSet : List (String × ToolCallSummary)
  fileSet : List String
  gitBranch : Option String
  model : Option String
  deriving Repr, DecidableEq

/-- The per-line update of `parseClaudeSessionDetail`'s loop. -/
def claudeDetailStep (cfg : PrivacyConfig) (st : ClaudeDetailState)
    (line : Option TranscriptEntry) : ClaudeDetailState :=
  match line with
  | none => st
  | some entry =>
    match filterTranscriptEntry entry cfg with
    | none => st
    | some f =>
      let hasSidechains := st.d.hasSidechains || f.isSidechain
      let gitBranch :=
        if jsFalsyStr st.gitBranch ∧ strTruthy f.gitBranch ∧ f.gitBranch ≠ some "HEAD"
        then f.gitBranch else st.gitBranch
      let planReferenced := st.d.planReferenced || strTruthy f.planContent
      match f.message with
      | none =>
        { st with
          d := { st.d with hasSidechains := hasSidechains, planReferenced := planReferenced }
          gitBranch := gitBranch }
      | some msg =>
        let model :=
          if strTruthy msg.model ∧ jsFalsyStr st.model then msg.model else st.model
        let base :=
          match msg.usage with
          | some u =>
            { st.d with
              hasSidechains := hasSidechains
              planReferenced := planReferenced
              totalInputTokens := st.d.totalInputTokens + u.input_tokens.getD 0
              totalOutputTokens := st.d.totalOutputTokens + u.output_tokens.getD 0
              cacheCreationInputTokens :=
                st.d.cacheCreationInputTokens + u.cache_creation_input_tokens.getD 0
              cacheReadInputTokens :=
                st.d.cacheReadInputTokens + u.cache_read_input_tokens.getD 0 }
          | none =>
            { st.d with hasSidechains := hasSidechains, planReferenced := planReferenced }
        let base :=
          if msg.role = "user" ∨ msg.role = "assistant"
          then { base with messageCount := base.messageCount + 1 } else base
        if msg.role = "assistant" ∧ msg.content.truthy then
          let text := extractText msg.content
          let summaries :=
            if text ≠ "" ∧ 20 < text.length then
              base.assistantSummaries ++
                [text.take 200 ++ (if 200 < text.length then "..." else "")]
            else base.assistantSummaries
          { d := { base with
              assistantSummaries := summaries
              thinkingBlockCount := base.thinkingBlockCount + countThinkingBlocks msg.content }
            toolCallSet := (extractToolCalls msg.content).foldl
              (fun m tc => mapSet m tc.displayName tc) st.toolCallSet
            fileSet := setAddAll st.fileSet (extractFilePaths msg.content)
            gitBranch := gitBranch
            model := model }
        else
          { st with d := base, gitBranch := gitBranch, model := model }

/-- src/parsers/session-detail.ts `parseClaudeSessionDetail`, over the parsed
lines of the session file (`none` content for a missing file). -/
def parseClaudeSessionDetail (session : SessionInfo)
    (content : Option (List (Option TranscriptEntry))) (cfg : PrivacyConfig) :
    SessionDetail :=
  match content with
  | none => emptyDetail session
  | some lines =>
    let st0 : ClaudeDetailState :=
      { d := emptyDetail session, toolCallSet := [], fileSet := []
        gitBranch := none, model := none }
    let st := lines.foldl (claudeDetailStep cfg) st0
    { st.d with
      toolCalls := mapValues st.toolCallSet
      filesReferenced := st.fileSet
      gitBranch := st.gitBranch
      model := st.model
      assistantSummaries := st.d.assistantSummaries.take 10 }

/-- src/readers/session-reader.ts `streamClaudeTranscript`: each parsed line
passed through the privacy filter; the emitted sequence (laziness is not
modelled, the stream content is). -/
def streamClaudeTranscript (content : Option (List (Option TranscriptEntry)))
    (cfg : PrivacyConfig) : List TranscriptEntry :=
  match content with
  | none => []
  | some lines => lines.filterMap (fun l => l.bind (fun e => filterTranscriptEntry e cfg))

/-! ## Format B (codex) — src/readers/codex-rollout-reader.ts,
src/readers/session-reader.ts `peekCodexSession` / `streamCodexTranscript`,
src/parsers/session-detail.ts `parseCodexSessionDetail`.

A rollout line is a tagged JSON event; the record below carries every path the
code reads.  A field is `none` when absent or not of the type the code's
`typeof`/`Array.isArray` guard expects.  `payloadArguments` carries the result
of the deterministic `parseCodexToolArguments` JSON parse of the raw
`payload.arguments` string (`none` for a non-string, blank, unparseable, or
non-object value). -/

/-- Token usage carried by an `event_msg`/`token_count` payload. -/
structure CodexUsage where
  input_tokens : Option Int
  output_tokens : Option Int
  cached_input_tokens : Option Int
  deriving Repr, DecidableEq

/-- One element of a codex `payload.content` array. -/
structure CodexContentEl where
  ty : Option String
  tx : Option String
  deriving Repr, DecidableEq

/-- One parsed codex rollout line. -/
structure CodexLine where
  type : String
  payloadType : Option String
  payloadRole : Option String
  payloadModel : Option String
  payloadBranch : Option String
  payloadUsage : Option CodexUsage
  payloadContent : Option (List CodexContentEl)
  payloadName : Option String
  payloadArguments : Option ToolArgs
  payloadOutput : Option String
  timestamp : Option String
  deriving Repr, DecidableEq

/-- src/readers/codex-rollout-reader.ts `parseCodexMessageText`: text of the
elements whose type is input_text/output_text/text, joined with newlines;
empty for a non-array content. -/
def parseCodexMessageText (content : Option (List CodexContentEl)) : String :=
  match content with
  | none => ""
  | some els =>
    String.intercalate "\n"
      ((els.filter (fun el => el.ty.isSome && el.tx.isSome &&
          (el.ty == some "input_text" || el.ty == some "output_text" ||
            el.ty == some "text"))).filterMap (fun el => el.tx))

/-- src/parsers/session-detail.ts `extractCodexFilePath`. -/
def extractCodexFilePath (input : Option ToolArgs) : Option String :=
  match input with
  | none => none
  | some _ =>
    ["file_path", "path", "target_file", "notebook_path"].findSome? (strArg input)

/-- src/parsers/session-detail.ts `extractCodexToolTarget`. -/
def extractCodexToolTarget (name : String) (input : Option ToolArgs) : Option String :=
  match extractCodexFilePath input with
  | some fp => some fp
  | none =>
    match input with
    | none => none
    | some args =>
      match ["command", "cmd", "pattern", "query"].findSome? (fun k =>
          (strArg input k).map (fun v =>
            if k = "command" ∨ k = "cmd" then firstWord v else v)) with
      | some t => some t
      | none =>
        match args.lookup "cmd" with
        | some (.str s) => if name = "exec_command" then some (firstWord s) else none
        | _ => none

/-- The per-line update of `peekCodexSession`'s loop
(src/readers/session-reader.ts). -/
def codexPeekStep (st : SessionMeta) (line : Option CodexLine) : SessionMeta :=
  match line with
  | none => st
  | some entry =>
    let st :=
      if entry.type = "session_meta" ∧ jsFalsyStr st.gitBranch ∧
          entry.payloadBranch.isSome ∧ entry.payloadBranch ≠ some "HEAD"
      then { st with gitBranch := entry.payloadBranch } else st
    let st :=
      if entry.type = "turn_context" ∧ jsFalsyStr st.model ∧ entry.payloadModel.isSome
      then { st with model := entry.payloadModel } else st
    let st :=
      if entry.type = "event_msg" ∧ entry.payloadType = some "token_count" then
        match entry.payloadUsage with
        | some u =>
          { st with
            totalInputTokens := st.totalInputTokens + u.input_tokens.getD 0
            totalOutputTokens := st.totalOutputTokens + u.output_tokens.getD 0
            cacheReadInputTokens := st.cacheReadInputTokens + u.cached_input_tokens.getD 0 }
        | none => st
      else st
    if entry.type = "response_item" ∧ entry.payloadType = some "message" ∧
        (entry.payloadRole = some "user" ∨ entry.payloadRole = some "assistant")
    then { st with messageCount := st.messageCount + 1 } else st

/-- src/readers/session-reader.ts `peekCodexSession`, over the parsed lines of
the rollout file (`none` content when no rollout file was found). -/
def peekCodexSession (session : SessionInfo)
    (content : Option (List (Option CodexLine))) : SessionMeta :=
  match content with
  | none => emptyMeta session
  | some lines => lines.foldl codexPeekStep (emptyMeta session)

/-- Loop state of `parseCodexSessionDetail`. -/
structure CodexDetailState where
  d : SessionDetail
  toolCallSet : List (String × ToolCallSummary)
  fileSet : List String
  gitBranch : Option String
  model : Option String
  deriving Repr, DecidableEq

/-- The per-line update of `parseCodexSessionDetail`'s loop
(src/parsers/session-detail.ts). -/
def codexDetailStep (cfg : PrivacyConfig) (st : CodexDetailState)
    (line : Option CodexLine) : CodexDetailState :=
  match line with
  | none => st
  | some entry =>
    if entry.type = "session_meta" then
      if jsFalsyStr st.gitBranch ∧ entry.payloadBranch.isSome ∧
          entry.payloadBranch ≠ some "HEAD"
      then { st with gitBranch := entry.payloadBranch } else st
    else if entry.type = "turn_context" then
      if jsFalsyStr st.model ∧ entry.payloadModel.isSome
      then { st with model := entry.payloadModel } else st
    else if entry.type = "event_msg" then
      let st :=
        if entry.payloadType = some "token_count" then
          match entry.payloadUsage with
          | some u =>
            { st with d := { st.d with
                totalInputTokens := st.d.totalInputTokens + u.input_tokens.getD 0
                totalOutputTokens := st.d.totalOutputTokens + u.output_tokens.getD 0
                cacheReadInputTokens :=
                  st.d.cacheReadInputTokens + u.cached_input_tokens.getD 0 } }
          | none => st
        else st
      if entry.payloadType = some "user_message" ∨ entry.payloadType = some "agent_message"
      then { st with d := { st.d with messageCount := st.d.messageCount + 1 } } else st
    else if entry.type = "response_item" then
      let st :=
        if entry.payloadType = some "reasoning"
        then { st with d := { st.d with thinkingBlockCount := st.d.thinkingBlockCount + 1 } }
        else st
      let st :=
        if entry.payloadType = some "message" ∧ entry.payloadRole = some "assistant" then
          let summary := parseCodexMessageText entry.payloadContent
          if summary ≠ "" ∧ 20 < summary.length then
            let redacted :=
              if cfg.redactPatterns.length > 0 ∨ cfg.redactHomeDir
              then redactString summary cfg else summary
            { st with d := { st.d with assistantSummaries :=
                st.d.assistantSummaries ++
                  [redacted.take 200 ++ (if 200 < redacted.length then "..." else "")] } }
          else st
        else st
      if entry.payloadType = some "function_call" ∧ entry.payloadName.isSome then
        let name := entry.payloadName.getD ""
        let input := entry.payloadArguments
        let displayName := toolDisplayName name input
        let summary : ToolCallSummary :=
          { name := name
            displayName := displayName
            category := categorizeToolName name
            target := extractCodexToolTarget name input }
        let st := { st with toolCallSet := mapSet st.toolCallSet displayName summary }
        match extractCodexFilePath input with
        | some fp => { st with fileSet := setAdd st.fileSet fp }
        | none => st
      else st
    else st

/-- src/parsers/session-detail.ts `parseCodexSessionDetail`, over the parsed
lines of the rollout file (`none` content when no rollout file was found). -/
def parseCodexSessionDetail (session : SessionInfo)
    (content : Option (List (Option CodexLine))) (cfg : PrivacyConfig) :
    SessionDetail :=
  match content with
  | none => emptyDetail session
  | some lines =>
    let st0 : CodexDetailState :=
      { d := emptyDetail session, toolCallSet := [], fileSet := []
        gitBranch := none, model := none }
    let st := lines.foldl (codexDetailStep cfg) st0
    { st.d with
      toolCalls := mapValues st.toolCallSet
      filesReferenced := st.fileSet
      gitBranch := st.gitBranch
      model := st.model
      assistantSummaries := st.d.assistantSummaries.take 10 }

/-- src/readers/session-reader.ts `streamCodexTranscript`'s loop, with the
mutable `currentModel` as an explicit parameter. -/
def streamCodexAux (cfg : PrivacyConfig) (cur : Option String) :
    List (Option CodexLine) → List TranscriptEntry
  | [] => []
  | none :: rest => streamCodexAux cfg cur rest
  | some raw :: rest =>
    if raw.type = "turn_context" ∧ raw.payloadModel.isSome then
      streamCodexAux cfg raw.payloadModel rest
    else
      let mapped : Option TranscriptEntry :=
        if raw.type = "response_item" ∧ raw.payloadType = some "message" ∧
            (raw.payloadRole = some "user" ∨ raw.payloadRole = some "assistant") then
          some { timestamp := raw.timestamp
                 message := some
                   { role := raw.payloadRole.getD ""
                     model := cur
                     content := .str (parseCodexMessageText raw.payloadContent)
                     usage := none }
                 toolUseResult := none, gitBranch := none
                 isSidechain := false, planContent := none }
        else if raw.type = "response_item" ∧ raw.payloadType = some "function_call" ∧
            raw.payloadName.isSome then
          some { timestamp := raw.timestamp
                 message := some
                   { role := "assistant"
                     model := cur
                     content := .blocks [.toolUse (raw.payloadName.getD "") raw.payloadArguments]
                     usage := none }
                 toolUseResult := none, gitBranch := none
                 isSidechain := false, planContent := none }
        else if raw.type = "response_item" ∧ raw.payloadType = some "function_call_output" then
          some { timestamp := raw.timestamp
                 message := none
                 toolUseResult := raw.payloadOutput, gitBranch := none
                 isSidechain := false, planContent := none }
        else none
      match mapped with
      | none => streamCodexAux cfg cur rest
      | some m =>
        match filterTranscriptEntry m cfg with
        | none => streamCodexAux cfg cur rest
        | some f => f :: streamCodexAux cfg cur rest

/-- src/readers/session-reader.ts `streamCodexTranscript` (`none` content when
no rollout file was found): the emitted entry sequence. -/
def streamCodexTranscript (content : Option (List (Option CodexLine)))
    (cfg : PrivacyConfig) : List TranscriptEntry :=
  match content with
  | none => []
  | some lines => streamCodexAux cfg none lines

/-! ## Format C (pi) — src/readers/pi-session-reader.ts
`peekPiSession` / `parsePiSessionDetail`. -/

/-- One Pi content block, as far as the code inspects it. -/
inductive PiBlock
  | text (t : String)
  | thinking (t : String)
  | toolCall (name : String) (id : Option String) (arguments : Option ToolArgs)
  | other
  deriving Repr, DecidableEq

/-- The `content` field of a Pi message. -/
inductive PiContent
  | str (s : String)
  | blocks (bs : List PiBlock)
  | absent
  deriving Repr, DecidableEq

/-- Provider-reported cost object of a Pi usage record. -/
structure PiCost where
  total : Option ℚ
  deriving Repr, DecidableEq

/-- Token usage of a Pi message. -/
structure PiUsage where
  input : Option Int
  output : Option Int
  cacheRead : Option Int
  cacheWrite : Option Int
  cost : Option PiCost
  deriving Repr, DecidableEq

/-- The `message` object of a Pi session line. -/
structure PiMessage where
  role : String
  content : PiContent
  model : Option String
  usage : Option PiUsage
  deriving Repr, DecidableEq

/-- One parsed Pi session line. -/
structure PiLine where
  type : String
  modelId : Option String
  timestamp : Option String
  message : Option PiMessage
  deriving Repr, DecidableEq

/-- src/readers/pi-session-reader.ts `extractPiFilePath`. -/
def extractPiFilePath (input : Option ToolArgs) : Option String :=
  match input with
  | none => none
  | some _ =>
    ["file_path", "path", "target_file", "notebook_path"].findSome? (strArg input)

/-- src/readers/pi-session-reader.ts `extractPiToolTarget`. -/
def extractPiToolTarget (_name : String) (input : Option ToolArgs) : Option String :=
  match extractPiFilePath input with
  | some fp => some fp
  | none =>
    match input with
    | none => none
    | some _ =>
      ["command", "pattern", "query"].findSome? (fun k =>
        (strArg input k).map (fun v => if k = "command" then firstWord v else v))

/-- The content-block mapping loop of `parsePiSessionDetail`: recognized Pi
blocks mapped into canonical blocks. -/
def mapPiBlocks (bs : List PiBlock) : List ContentBlock :=
  bs.filterMap (fun b =>
    match b with
    | .text t => some (.text t)
    | .thinking t => some (.thinking t)
    | .toolCall name _ args => some (.toolUse name args)
    | .other => none)

/-- Loop state of `peekPiSession`: the accumulating meta plus the running
cost total. -/
structure PiPeekState where
  m : SessionMeta
  totalCost : ℚ
  deriving Repr, DecidableEq

/-- The per-line update of `peekPiSession`'s loop. -/
def piPeekStep (st : PiPeekState) (line : Option PiLine) : PiPeekState :=
  match line with
  | none => st
  | some entry =>
    let st :=
      if entry.type = "model_change" ∧ jsFalsyStr st.m.model ∧ entry.modelId.isSome
      then { st with m := { st.m with model := entry.modelId } } else st
    if entry.type = "message" then
      match entry.message with
      | none => st
      | some msg =>
        let st :=
          if msg.role = "user" ∨ msg.role = "assistant"
          then { st with m := { st.m with messageCount := st.m.messageCount + 1 } }
          else st
        let st :=
          match msg.usage with
          | some u =>
            { st with m := { st.m with
                totalInputTokens := st.m.totalInputTokens + u.input.getD 0
                totalOutputTokens := st.m.totalOutputTokens + u.output.getD 0
                cacheReadInputTokens := st.m.cacheReadInputTokens + u.cacheRead.getD 0
                cacheCreationInputTokens :=
                  st.m.cacheCreationInputTokens + u.cacheWrite.getD 0 } }
          | none => st
        match msg.usage.bind (fun u => u.cost) with
        | some c =>
          match c.total with
          | some t => { st with totalCost := st.totalCost + t }
          | none => st
        | none => st
    else st

/-- src/readers/pi-session-reader.ts `peekPiSession`, over the parsed lines of
the Pi session file (`none` content when no file was found). -/
def peekPiSession (session : SessionInfo)
    (content : Option (List (Option PiLine))) : SessionMeta :=
  match content with
  | none => emptyMeta session
  | some lines =>
    let st := lines.foldl piPeekStep { m := emptyMeta session, totalCost := 0 }
    if st.totalCost > 0 then { st.m with totalCost := some st.totalCost } else st.m

/-- Loop state of `parsePiSessionDetail`. -/
structure PiDetailState where
  d : SessionDetail
  toolCallSet : List (String × ToolCallSummary)
  fileSet : List String
  model : Option String
  totalCost : ℚ
  deriving Repr, DecidableEq

/-- The per-line update of `parsePiSessionDetail`'s loop. -/
def piDetailStep (cfg : PrivacyConfig) (st : PiDetailState)
    (line : Option PiLine) : PiDetailState :=
  match line with
  | none => st
  | some entry =>
    let st :=
      if entry.type = "model_change" ∧ jsFalsyStr st.model ∧ entry.modelId.isSome
      then { st with model := entry.modelId } else st
    if entry.type = "message" then
      match entry.message with
      | none => st
      | some msg =>
        let st :=
          if msg.role = "user" ∨ msg.role = "assistant"
          then { st with d := { st.d with messageCount := st.d.messageCount + 1 } }
          else st
        let st :=
          match msg.usage with
          | some u =>
            { st with d := { st.d with
                totalInputTokens := st.d.totalInputTokens + u.input.getD 0
                totalOutputTokens := st.d.totalOutputTokens + u.output.getD 0
                cacheReadInputTokens := st.d.cacheReadInputTokens + u.cacheRead.getD 0
                cacheCreationInputTokens :=
                  st.d.cacheCreationInputTokens + u.cacheWrite.getD 0 } }
          | none => st
        let st :=
          match msg.usage.bind (fun u => u.cost) with
          | some c =>
            match c.total with
            | some t => { st with totalCost := st.totalCost + t }
            | none => st
          | none => st
        if msg.role = "assistant" then
          match msg.content with
          | .blocks pbs =>
            let blocks := mapPiBlocks pbs
            let tcs : List (String × Option ToolArgs) := pbs.filterMap (fun b =>
              match b with
              | .toolCall name _ args => some (name, args)
              | _ => none)
            let st := { st with
              toolCallSet := tcs.foldl
                (fun (m : List (String × ToolCallSummary)) (nc : String × Option ToolArgs) =>
                  mapSet m (toolDisplayName nc.1 nc.2)
                    { name := nc.1
                      displayName := toolDisplayName nc.1 nc.2
                      category := categorizeToolName nc.1
                      target := extractPiToolTarget nc.1 nc.2 }) st.toolCallSet
              fileSet := setAddAll st.fileSet
                (tcs.filterMap (fun (nc : String × Option ToolArgs) => extractPiFilePath nc.2)) }
            let textContent := extractText (.blocks blocks)
            let st :=
              if textContent ≠ "" ∧ 20 < textContent.length then
                let redacted :=
                  if cfg.redactPatterns.length > 0 ∨ cfg.redactHomeDir
                  then redactString textContent cfg else textContent
                { st with d := { st.d with assistantSummaries :=
                    st.d.assistantSummaries ++
                      [redacted.take 200 ++ (if 200 < redacted.length then "..." else "")] } }
              else st
            let st := { st with fileSet := setAddAll st.fileSet (extractFilePaths (.blocks blocks)) }
            { st with d := { st.d with thinkingBlockCount :=
                st.d.thinkingBlockCount + countThinkingBlocks (.blocks blocks) } }
          | _ => st
        else st
    else st

/-- src/readers/pi-session-reader.ts `parsePiSessionDetail`, over the parsed
lines of the Pi session file (`none` content when no file was found). -/
def parsePiSessionDetail (session : SessionInfo)
    (content : Option (List (Option PiLine))) (cfg : PrivacyConfig) :
    SessionDetail :=
  match content with
  | none => emptyDetail session
  | some lines =>
    let st := lines.foldl (piDetailStep cfg)
      { d := emptyDetail session, toolCallSet := [], fileSet := []
        model := none, totalCost := 0 }
    let d := { st.d with
      toolCalls := mapValues st.toolCallSet
      filesReferenced := st.fileSet
      model := st.model }
    let d := if st.totalCost > 0 then { d with totalCost := some st.totalCost } else d
    { d with assistantSummaries := d.assistantSummaries.take 10 }

/-! ## Format A history reader — src/readers/history-reader.ts
`readClaudeHistory`. -/

/-- One parsed line of the Format A history.jsonl index. -/
structure ClaudeHistoryEntry where
  display : String
  timestamp : Int
  project : String
  sessionId : String
  deriving Repr, DecidableEq

/-- Modelled from the spec: `toLocalDate` of src/utils/dates.ts is not among
the given sources.  It renders a ms timestamp as the calendar date used for
range comparison; modelled as the day index (timezone fixed to UTC), with
`from`/`to` given as day indices. -/
def toLocalDate (ms : Int) : Int := ms.fdiv 86400000

/-- Modelled from the spec: `isProjectExcluded` of src/privacy/redact.ts is
not among the given sources.  Per §4.4, project-level exclusion drops a
session whose owning project path matches an excluded pattern; modelled as
membership in the resolved exclusion list. -/
def isProjectExcluded (project : String) (cfg : PrivacyConfig) : Bool :=
  cfg.excludeProjects.contains project

/-- src/utils/paths.ts `projectName`: last path segment of
`path.split("/")`, or the whole path when that segment is empty. -/
def projectName (projectPath : String) : String :=
  let last := ((splitChar '/' projectPath).getLast?).getD ""
  if last = "" then projectPath else last

/-- The prompt-text transform applied per history entry (redaction ladder of
`readClaudeHistory`). -/
def displayOf (cfg : PrivacyConfig) (s : String) : String :=
  if cfg.redactPrompts then "[redacted]"
  else if cfg.redactPatterns.length > 0 then redactString s cfg
  else s

/-- One per-session accumulation group of `readClaudeHistory`. -/
structure HistoryGroup where
  project : String
  prompts : List String
  timestamps : List Int
  deriving Repr, DecidableEq

/-- The grouping step of `readClaudeHistory`: JS `Map.get`/`set` keyed by
session ID, appending to an existing group or inserting a fresh one. -/
def groupUpsert (cfg : PrivacyConfig) (m : List (String × HistoryGroup))
    (e : ClaudeHistoryEntry) : List (String × HistoryGroup) :=
  if m.any (fun p => p.1 = e.sessionId) then
    m.map (fun p =>
      if p.1 = e.sessionId then
        (p.1, { p.2 with
          prompts := p.2.prompts ++ [displayOf cfg e.display]
          timestamps := p.2.timestamps ++ [e.timestamp] })
      else p)
  else
    m ++ [(e.sessionId,
      { project := e.project
        prompts := [displayOf cfg e.display]
        timestamps := [e.timestamp] })]

/-- JS stable `Array.prototype.sort((a, b) => a.timeRange.start -
b.timeRange.start)` on sessions: insert after existing equal keys. -/
def insertByStart (x : SessionInfo) : List SessionInfo → List SessionInfo
  | [] => [x]
  | y :: ys =>
    if x.timeRange.start < y.timeRange.start then x :: y :: ys
    else y :: insertByStart x ys

/-- Stable sort of sessions by range start. -/
def sortByStart (l : List SessionInfo) : List SessionInfo := l.foldr insertByStart []

/-- src/readers/history-reader.ts `readClaudeHistory`, over the parsed lines
of history.jsonl (`none` content for a missing index file).  The first pass
keeps entries inside the date range whose project is not excluded; the second
groups them by session ID; each group becomes a `SessionInfo` whose range is
the min/max of the group's timestamps; the result is sorted by range start. -/
def readClaudeHistory (content : Option (List (Option ClaudeHistoryEntry)))
    (fromDay toDay : Int) (cfg : PrivacyConfig) : List SessionInfo :=
  match content with
  | none => []
  | some lines =>
    let entries := lines.filterMap (fun l =>
      match l with
      | none => none
      | some e =>
        if toLocalDate e.timestamp < fromDay ∨ toDay < toLocalDate e.timestamp then none
        else if isProjectExcluded e.project cfg then none
        else some e)
    let groups := entries.foldl (groupUpsert cfg) []
    let sessions := groups.map (fun p =>
      { sessionId := p.1
        project := p.2.project
        projectName := projectName p.2.project
        prompts := p.2.prompts
        promptTimestamps := p.2.timestamps
        timeRange := { start := listMin p.2.timestamps, stop := listMax p.2.timestamps } })
    sortByStart sessions

/-! ## Partition into detailed and short sessions —
src/parsers/session-detail.ts `parseSessions` (claude provider dispatch). -/

/-- src/parsers/session-detail.ts `parseSessions`: sessions with 3 or more
prompts are fully parsed into the detailed list, the rest stay index-only in
the short list.  `fs` maps a session to its file's parsed lines. -/
def parseSessions (sessions : List SessionInfo)
    (fs : SessionInfo → Option (List (Option TranscriptEntry)))
    (cfg : PrivacyConfig) : List SessionDetail × List SessionInfo :=
  match sessions with
  | [] => ([], [])
  | s :: rest =>
    let r := parseSessions rest fs cfg
    if 3 ≤ s.prompts.length then (parseClaudeSessionDetail s (fs s) cfg :: r.1, r.2)
    else (r.1, s :: r.2)

/-! ## Frame lemmas: the identity fields of the input session are never
reassigned by the peek/detail loops. -/

set_option maxHeartbeats 1000000 in
theorem claudePeekStep_info (st : SessionMeta) (l : Option TranscriptEntry) :
    (claudePeekStep st l).toSessionInfo = st.toSessionInfo := by
  unfold claudePeekStep
  cases l with
  | none => rfl
  | some entry =>
    cases hm : entry.message with
    | none =>
      simp only [hm, Option.bind, Option.map]
      try dsimp only
      try split_ifs
      all_goals rfl
    | some msg =>
      cases hu : msg.usage
      all_goals
        simp only [hm, hu, Option.bind, Option.map]
        try dsimp only
        try split_ifs
        all_goals rfl

set_option maxHeartbeats 1000000 in
theorem claudeDetailStep_info (cfg : PrivacyConfig) (st : ClaudeDetailState)
    (l : Option TranscriptEntry) :
    (claudeDetailStep cfg st l).d.toSessionInfo = st.d.toSessionInfo := by
  unfold claudeDetailStep
  cases l with
  | none => rfl
  | some entry =>
    dsimp only [filterTranscriptEntry]
    cases hm : entry.message with
    | none =>
      simp only [hm, Option.map]
      try dsimp only
      try split_ifs
      all_goals rfl
    | some msg =>
      cases hu : msg.usage
      all_goals
        simp only [hm, Option.map]
        try dsimp only
        simp only [hu]
        try dsimp only
        try split_ifs
        all_goals rfl

set_option maxHeartbeats 1000000 in
theorem codexPeekStep_info (st : SessionMeta) (l : Option CodexLine) :
    (codexPeekStep st l).toSessionInfo = st.toSessionInfo := by
  unfold codexPeekStep
  cases l with
  | none => rfl
  | some entry =>
    cases hu : entry.payloadUsage
    all_goals
      simp only [hu]
      try dsimp only
      try split_ifs
      all_goals rfl

set_option maxHeartbeats 1600000 in
theorem codexDetailStep_info (cfg : PrivacyConfig) (st : CodexDetailState)
    (l : Option CodexLine) :
    (codexDetailStep cfg st l).d.toSessionInfo = st.d.toSessionInfo := by
  unfold codexDetailStep
  cases l with
  | none => rfl
  | some entry =>
    cases hu : entry.payloadUsage
    all_goals cases hf : extractCodexFilePath entry.payloadArguments
    all_goals
      simp only [hu, hf]
      try dsimp only
      try split_ifs
      all_goals rfl

set_option maxHeartbeats 1000000 in
theorem piPeekStep_info (st : PiPeekState) (l : Option PiLine) :
    (piPeekStep st l).m.toSessionInfo = st.m.toSessionInfo := by
  unfold piPeekStep
  cases l with
  | none => rfl
  | some entry =>
    cases hm : entry.message with
    | none =>
      simp only [hm]
      try dsimp only
      try split_ifs
      all_goals rfl
    | some msg =>
      cases hu : msg.usage with
      | none =>
        simp only [hm, hu, Option.bind]
        try dsimp only
        try split_ifs
        all_goals rfl
      | some u =>
        cases hc : u.cost with
        | none =>
          simp only [hm, hu, hc, Option.bind]
          try dsimp only
          try split_ifs
          all_goals rfl
        | some c =>
          cases ht : c.total
          all_goals
            simp only [hm, hu, hc, ht, Option.bind]
            try dsimp only
            try split_ifs
            all_goals rfl

set_option maxHeartbeats 1600000 in
theorem piDetailStep_info (cfg : PrivacyConfig) (st : PiDetailState)
    (l : Option PiLine) :
    (piDetailStep cfg st l).d.toSessionInfo = st.d.toSessionInfo := by
  unfold piDetailStep
  cases l with
  | none => rfl
  | some entry =>
    cases hm : entry.message with
    | none =>
      simp only [hm]
      try dsimp only
      try split_ifs
      all_goals rfl
    | some msg =>
      cases hu : msg.usage with
      | none =>
        cases hcon : msg.content
        all_goals
          simp only [hm, hu, hcon, Option.bind]
          try dsimp only
          try split_ifs
          all_goals rfl
      | some u =>
        cases hc : u.cost with
        | none =>
          cases hcon : msg.content
          all_goals
            simp only [hm, hu, hc, hcon, Option.bind]
            try dsimp only
            try split_ifs
            all_goals rfl
        | some c =>
          cases ht : c.total
          all_goals cases hcon : msg.content
          all_goals
            simp only [hm, hu, hc, ht, hcon, Option.bind]
            try dsimp only
            try split_ifs
            all_goals rfl

theorem foldl_invariant {α β : Type _} (f : β → α → β) (P : β → Prop)
    (hstep : ∀ b a, P b → P (f b a)) :
    ∀ (l : List α) (b : β), P b → P (l.foldl f b) := by
  intro l
  induction l with
  | nil => exact fun b hb => hb
  | cons x t ih => exact fun b hb => ih _ (hstep b x hb)

theorem peekClaudeSession_info (s : SessionInfo)
    (c : Option (List (Option TranscriptEntry))) :
    (peekClaudeSession s c).toSessionInfo = s := by
  cases c with
  | none => rfl
  | some lines =>
    exact foldl_invariant claudePeekStep (fun m => m.toSessionInfo = s)
      (fun b a hb => (claudePeekStep_info b a).trans hb) lines (emptyMeta s) rfl

theorem parseClaudeSessionDetail_info (s : SessionInfo)
    (c : Option (List (Option TranscriptEntry))) (cfg : PrivacyConfig) :
    (parseClaudeSessionDetail s c cfg).toSessionInfo = s := by
  cases c with
  | none => rfl
  | some lines =>
    have h := foldl_invariant (claudeDetailStep cfg) (fun st => st.d.toSessionInfo = s)
      (fun b a hb => (claudeDetailStep_info cfg b a).trans hb) lines
      { d := emptyDetail s, toolCallSet := [], fileSet := [], gitBranch := none, model := none }
      rfl
    simpa [parseClaudeSessionDetail] using h

theorem peekCodexSession_info (s : SessionInfo)
    (c : Option (List (Option CodexLine))) :
    (peekCodexSession s c).toSessionInfo = s := by
  cases c with
  | none => rfl
  | some lines =>
    exact foldl_invariant codexPeekStep (fun m => m.toSessionInfo = s)
      (fun b a hb => (codexPeekStep_info b a).trans hb) lines (emptyMeta s) rfl

theorem parseCodexSessionDetail_info (s : SessionInfo)
    (c : Option (List (Option CodexLine))) (cfg : PrivacyConfig) :
    (parseCodexSessionDetail s c cfg).toSessionInfo = s := by
  cases c with
  | none => rfl
  | some lines =>
    have h := foldl_invariant (codexDetailStep cfg) (fun st => st.d.toSessionInfo = s)
      (fun b a hb => (codexDetailStep_info cfg b a).trans hb) lines
      { d := emptyDetail s, toolCallSet := [], fileSet := [], gitBranch := none, model := none }
      rfl
    simpa [parseCodexSessionDetail] using h

theorem peekPiSession_info (s : SessionInfo)
    (c : Option (List (Option PiLine))) :
    (peekPiSession s c).toSessionInfo = s := by
  cases c with
  | none => rfl
  | some lines =>
    have h := foldl_invariant piPeekStep (fun st => st.m.toSessionInfo = s)
      (fun b a hb => (piPeekStep_info b a).trans hb) lines
      { m := emptyMeta s, totalCost := 0 } rfl
    unfold peekPiSession
    dsimp only
    split
    · simpa using h
    · exact h

theorem parsePiSessionDetail_info (s : SessionInfo)
    (c : Option (List (Option PiLine))) (cfg : PrivacyConfig) :
    (parsePiSessionDetail s c cfg).toSessionInfo = s := by
  cases c with
  | none => rfl
  | some lines =>
    have h := foldl_invariant (piDetailStep cfg) (fun st => st.d.toSessionInfo = s)
      (fun b a hb => (piDetailStep_info cfg b a).trans hb) lines
      { d := emptyDetail s, toolCallSet := [], fileSet := [], model := none, totalCost := 0 }
      rfl
    unfold parsePiSessionDetail
    dsimp only
    split
    · simpa using h
    · simpa using h

/-- Claim C10: `peekSession` and `parseSessionDetail` preserve the identity
fields of the input SessionInfo (sessionId, project, projectName, prompts,
promptTimestamps, timeRange); only the metadata and detail fields are freshly
computed.  Stated for the three per-provider peek and detail functions. -/
theorem c10_identity_preserved (s : SessionInfo) (cfg : PrivacyConfig)
    (ca : Option (List (Option TranscriptEntry)))
    (cb : Option (List (Option CodexLine)))
    (cp : Option (List (Option PiLine))) :
    (peekClaudeSession s ca).toSessionInfo = s ∧
    (peekCodexSession s cb).toSessionInfo = s ∧
    (peekPiSession s cp).toSessionInfo = s ∧
    (parseClaudeSessionDetail s ca cfg).toSessionInfo = s ∧
    (parseCodexSessionDetail s cb cfg).toSessionInfo = s ∧
    (parsePiSessionDetail s cp cfg).toSessionInfo = s :=
  ⟨peekClaudeSession_info s ca, peekCodexSession_info s cb, peekPiSession_info s cp,
   parseClaudeSessionDetail_info s ca cfg, parseCodexSessionDetail_info s cb cfg,
   parsePiSessionDetail_info s cp cfg⟩

/-- Claim C8: a missing session file yields the zero-valued default result in
every tier (peek, detail, transcript), and a missing index file yields an
empty session list. -/
theorem c8_missing_file_defaults (s : SessionInfo) (cfg : PrivacyConfig)
    (fromDay toDay : Int) :
    readClaudeHistory none fromDay toDay cfg = [] ∧
    peekClaudeSession s none = emptyMeta s ∧
    peekCodexSession s none = emptyMeta s ∧
    peekPiSession s none = emptyMeta s ∧
    parseClaudeSessionDetail s none cfg = emptyDetail s ∧
    parseCodexSessionDetail s none cfg = emptyDetail s ∧
    parsePiSessionDetail s none cfg = emptyDetail s ∧
    streamClaudeTranscript none cfg = [] ∧
    streamCodexTranscript none cfg = [] ∧
    (emptyMeta s).totalInputTokens = 0 ∧ (emptyMeta s).totalOutputTokens = 0 ∧
    (emptyMeta s).cacheCreationInputTokens = 0 ∧
    (emptyMeta s).cacheReadInputTokens = 0 ∧ (emptyMeta s).messageCount = 0 ∧
    (emptyDetail s).messageCount = 0 :=
  ⟨rfl, rfl, rfl, rfl, rfl, rfl, rfl, rfl, rfl, rfl, rfl, rfl, rfl, rfl, rfl⟩

/-! ## Claim C2: peek token sums equal detail token sums -/

/-- The four token counters of a meta record, as one tuple. -/
def metaTokens (m : SessionMeta) : Int × Int × Int × Int :=
  (m.totalInputTokens, m.totalOutputTokens, m.cacheCreationInputTokens,
    m.cacheReadInputTokens)

set_option maxHeartbeats 1600000 in
theorem claude_step_tokens (cfg : PrivacyConfig) (stm : SessionMeta)
    (std : ClaudeDetailState) (l : Option TranscriptEntry)
    (h : metaTokens stm = metaTokens std.d.toSessionMeta) :
    metaTokens (claudePeekStep stm l) =
      metaTokens ((claudeDetailStep cfg std l).d.toSessionMeta) := by
  unfold claudePeekStep claudeDetailStep
  cases l with
  | none => exact h
  | some entry =>
    dsimp only [filterTranscriptEntry]
    cases hm : entry.message with
    | none =>
      simp only [hm, Option.bind, Option.map]
      try dsimp only
      try split_ifs
      all_goals
        first
        | exact h
        | (simp only [metaTokens, Prod.ext_iff] at h ⊢
           obtain ⟨h1, h2, h3, h4⟩ := h
           simp [h1, h2, h3, h4])
        | simp_all
    | some msg =>
      cases hu : msg.usage
      all_goals
        simp only [hm, Option.bind, Option.map]
        try dsimp only
        simp only [hu]
        try dsimp only
        try split_ifs
        all_goals
          first
          | exact h
          | (simp only [metaTokens, Prod.ext_iff] at h ⊢
             obtain ⟨h1, h2, h3, h4⟩ := h
             simp [h1, h2, h3, h4])
          | simp_all

/-- Componentwise sum of two token tuples. -/
def addTokens (a b : Int × Int × Int × Int) : Int × Int × Int × Int :=
  (a.1 + b.1, a.2.1 + b.2.1, a.2.2.1 + b.2.2.1, a.2.2.2 + b.2.2.2)

/-- The token contribution of one codex line: the `token_count` accumulation
shared verbatim by `peekCodexSession` and `parseCodexSessionDetail`. -/
def codexTokenDelta : Option CodexLine → Int × Int × Int × Int
  | none => (0, 0, 0, 0)
  | some entry =>
    if entry.type = "event_msg" ∧ entry.payloadType = some "token_count" then
      match entry.payloadUsage with
      | some u => (u.input_tokens.getD 0, u.output_tokens.getD 0, 0,
          u.cached_input_tokens.getD 0)
      | none => (0, 0, 0, 0)
    else (0, 0, 0, 0)

set_option maxHeartbeats 1600000 in
theorem codexPeekStep_tokens (st : SessionMeta) (l : Option CodexLine) :
    metaTokens (codexPeekStep st l) = addTokens (metaTokens st) (codexTokenDelta l) := by
  cases l with
  | none => simp [codexPeekStep, codexTokenDelta, addTokens, metaTokens]
  | some entry =>
    unfold codexPeekStep codexTokenDelta
    cases hu : entry.payloadUsage
    all_goals
      simp only [hu]
      try dsimp only
      split_ifs
      all_goals first
        | simp_all [metaTokens, addTokens]
        | (exfalso; simp_all)

set_option maxHeartbeats 1600000 in
theorem codexDetailStep_tokens (cfg : PrivacyConfig) (st : CodexDetailState)
    (l : Option CodexLine) :
    metaTokens ((codexDetailStep cfg st l).d.toSessionMeta) =
      addTokens (metaTokens st.d.toSessionMeta) (codexTokenDelta l) := by
  cases l with
  | none => simp [codexDetailStep, codexTokenDelta, addTokens, metaTokens]
  | some entry =>
    unfold codexDetailStep codexTokenDelta
    cases hu : entry.payloadUsage
    all_goals cases hf : extractCodexFilePath entry.payloadArguments
    all_goals
      simp only [hu, hf]
      try dsimp only
      split_ifs
      all_goals first
        | simp_all [metaTokens, addTokens]
        | (exfalso; simp_all)

theorem codex_step_tokens (cfg : PrivacyConfig) (stm : SessionMeta)
    (std : CodexDetailState) (l : Option CodexLine)
    (h : metaTokens stm = metaTokens std.d.toSessionMeta) :
    metaTokens (codexPeekStep stm l) =
      metaTokens ((codexDetailStep cfg std l).d.toSessionMeta) := by
  rw [codexPeekStep_tokens, codexDetailStep_tokens, h]

set_option maxHeartbeats 1600000 in
theorem pi_step_tokens (cfg : PrivacyConfig) (stm : PiPeekState)
    (std : PiDetailState) (l : Option PiLine)
    (h : metaTokens stm.m = metaTokens std.d.toSessionMeta) :
    metaTokens (piPeekStep stm l).m =
      metaTokens ((piDetailStep cfg std l).d.toSessionMeta) := by
  unfold piPeekStep piDetailStep
  cases l with
  | none => exact h
  | some entry =>
    cases hm : entry.message with
    | none =>
      simp only [hm]
      try dsimp only
      try split_ifs
      all_goals
        first
        | exact h
        | (simp only [metaTokens, Prod.ext_iff] at h ⊢
           obtain ⟨h1, h2, h3, h4⟩ := h
           simp [h1, h2, h3, h4])
        | simp_all
    | some msg =>
      cases hu : msg.usage with
      | none =>
        cases hcon : msg.content
        all_goals
          simp only [hm, hu, hcon, Option.bind]
          try dsimp only
          try split_ifs
          all_goals
            first
            | exact h
            | (simp only [metaTokens, Prod.ext_iff] at h ⊢
               obtain ⟨h1, h2, h3, h4⟩ := h
               simp [h1, h2, h3, h4])
            | simp_all
      | some u =>
        cases hc : u.cost with
        | none =>
          cases hcon : msg.content
          all_goals
            simp only [hm, hu, hc, hcon, Option.bind]
            try dsimp only
            try split_ifs
            all_goals
              first
              | exact h
              | (simp only [metaTokens, Prod.ext_iff] at h ⊢
                 obtain ⟨h1, h2, h3, h4⟩ := h
                 simp [h1, h2, h3, h4])
              | simp_all
        | some c =>
          cases ht : c.total
          all_goals cases hcon : msg.content
          all_goals
            simp only [hm, hu, hc, ht, hcon, Option.bind]
            try dsimp only
            try split_ifs
            all_goals
              first
              | exact h
              | (simp only [metaTokens, Prod.ext_iff] at h ⊢
                 obtain ⟨h1, h2, h3, h4⟩ := h
                 simp [h1, h2, h3, h4])
              | simp_all

theorem claude_fold_tokens (cfg : PrivacyConfig) (lines : List (Option TranscriptEntry)) :
    ∀ (stm : SessionMeta) (std : ClaudeDetailState),
      metaTokens stm = metaTokens std.d.toSessionMeta →
      metaTokens (lines.foldl claudePeekStep stm) =
        metaTokens ((lines.foldl (claudeDetailStep cfg) std).d.toSessionMeta) := by
  induction lines with
  | nil => exact fun _ _ h => h
  | cons x t ih => exact fun stm std h => ih _ _ (claude_step_tokens cfg stm std x h)

theorem codex_fold_tokens (cfg : PrivacyConfig) (lines : List (Option CodexLine)) :
    ∀ (stm : SessionMeta) (std : CodexDetailState),
      metaTokens stm = metaTokens std.d.toSessionMeta →
      metaTokens (lines.foldl codexPeekStep stm) =
        metaTokens ((lines.foldl (codexDetailStep cfg) std).d.toSessionMeta) := by
  induction lines with
  | nil => exact fun _ _ h => h
  | cons x t ih => exact fun stm std h => ih _ _ (codex_step_tokens cfg stm std x h)

theorem pi_fold_tokens (cfg : PrivacyConfig) (lines : List (Option PiLine)) :
    ∀ (stm : PiPeekState) (std : PiDetailState),
      metaTokens stm.m = metaTokens std.d.toSessionMeta →
      metaTokens (lines.foldl piPeekStep stm).m =
        metaTokens ((lines.foldl (piDetailStep cfg) std).d.toSessionMeta) := by
  induction lines with
  | nil => exact fun _ _ h => h
  | cons x t ih => exact fun stm std h => ih _ _ (pi_step_tokens cfg stm std x h)

/-- Claim C2: for every session file and every privacy configuration, the four
token sums computed by the Peek tier (totalInputTokens, totalOutputTokens,
cacheCreationInputTokens, cacheReadInputTokens) equal the corresponding sums
computed by the full Detail parse of the same file, for each of the three
provider adapters. -/
theorem c2_peek_detail_token_sums (s : SessionInfo) (cfg : PrivacyConfig)
    (ca : Option (List (Option TranscriptEntry)))
    (cb : Option (List (Option CodexLine)))
    (cp : Option (List (Option PiLine))) :
    metaTokens (peekClaudeSession s ca) =
      metaTokens (parseClaudeSessionDetail s ca cfg).toSessionMeta ∧
    metaTokens (peekCodexSession s cb) =
      metaTokens (parseCodexSessionDetail s cb cfg).toSessionMeta ∧
    metaTokens (peekPiSession s cp) =
      metaTokens (parsePiSessionDetail s cp cfg).toSessionMeta := by
  refine ⟨?_, ?_, ?_⟩
  · cases ca with
    | none => rfl
    | some lines => exact claude_fold_tokens cfg lines (emptyMeta s) _ rfl
  · cases cb with
    | none => rfl
    | some lines => exact codex_fold_tokens cfg lines (emptyMeta s) _ rfl
  · cases cp with
    | none => rfl
    | some lines =>
      have h := pi_fold_tokens cfg lines { m := emptyMeta s, totalCost := 0 }
        { d := emptyDetail s, toolCallSet := [], fileSet := [], model := none,
          totalCost := 0 } rfl
      unfold peekPiSession parsePiSessionDetail
      dsimp only
      split <;> split <;> exact h

/-! ## Claim C9: assistant summaries of the Detail tier -/

/-- A resolved local-profile configuration: tool results and thinking stripped,
no pattern or path redaction. -/
def localConfig : PrivacyConfig :=
  { excludeProjects := [], redactToolResults := true, redactThinking := true,
    redactPaths := false, redactHomeDir := false, redactPrompts := false,
    redactPatterns := [] }

/-- The filtered assistant texts of a Format A file, in file order: for each
parsed line whose privacy-filtered message is an assistant message with truthy
content, the extracted text. -/
def assistantTexts (cfg : PrivacyConfig) (lines : List (Option TranscriptEntry)) :
    List String :=
  lines.filterMap (fun l =>
    match l with
    | none => none
    | some entry =>
      match entry.message with
      | none => none
      | some msg =>
        let c := filterMsgContent cfg msg.content
        if msg.role = "assistant" ∧ c.truthy then some (extractText c) else none)

/-- The truncation applied to a kept summary: first 200 characters, with an
ellipsis appended when the original was longer. -/
def truncateSummary (t : String) : String :=
  t.take 200 ++ (if 200 < t.length then "..." else "")

theorem ne_empty_and_lt_iff (t : String) : (t ≠ "" ∧ 20 < t.length) ↔ 20 < t.length := by
  constructor
  · exact fun h => h.2
  · intro h
    refine ⟨?_, h⟩
    intro he
    rw [he] at h
    simp at h

set_option maxHeartbeats 1600000 in
theorem claudeDetailStep_summaries (cfg : PrivacyConfig) (st : ClaudeDetailState)
    (l : Option TranscriptEntry) :
    (claudeDetailStep cfg st l).d.assistantSummaries =
      st.d.assistantSummaries ++
        ((assistantTexts cfg [l]).filter (fun t => 20 < t.length)).map truncateSummary := by
  unfold claudeDetailStep assistantTexts
  cases l with
  | none => simp
  | some entry =>
    dsimp only [filterTranscriptEntry]
    cases hm : entry.message with
    | none =>
      simp only [hm, Option.map]
      try dsimp only
      try split_ifs
      all_goals simp [hm, List.filterMap_cons]
    | some msg =>
      cases hu : msg.usage
      all_goals
        simp only [hm, Option.map]
        try dsimp only
        simp only [hu]
        try dsimp only
        try split_ifs
        all_goals
          first
          | (simp [hm, List.filterMap_cons, truncateSummary]; done)
          | (simp_all [List.filterMap_cons, truncateSummary, ne_empty_and_lt_iff]; done)
          | (simp_all [List.filterMap_cons, truncateSummary, ne_empty_and_lt_iff]
             rw [if_neg (by omega)]
             simp)
          | (exfalso; simp_all [ne_empty_and_lt_iff])

theorem assistantTexts_cons (cfg : PrivacyConfig) (x : Option TranscriptEntry)
    (xs : List (Option TranscriptEntry)) :
    assistantTexts cfg (x :: xs) = assistantTexts cfg [x] ++ assistantTexts cfg xs := by
  cases x with
  | none => simp [assistantTexts]
  | some entry =>
    cases hm : entry.message with
    | none => simp [assistantTexts, hm]
    | some msg =>
      by_cases hc : msg.role = "assistant" ∧ (filterMsgContent cfg msg.content).truthy = true
      · simp [assistantTexts, hm, hc]
      · simp [assistantTexts, hm, hc]

theorem claude_fold_summaries (cfg : PrivacyConfig)
    (lines : List (Option TranscriptEntry)) :
    ∀ st : ClaudeDetailState,
      (lines.foldl (claudeDetailStep cfg) st).d.assistantSummaries =
        st.d.assistantSummaries ++
          ((assistantTexts cfg lines).filter (fun t => 20 < t.length)).map truncateSummary := by
  induction lines with
  | nil => intro st; simp [assistantTexts]
  | cons x xs ih =>
    intro st
    rw [List.foldl_cons, ih (claudeDetailStep cfg st x), assistantTexts_cons cfg x xs,
      List.filter_append, List.map_append, claudeDetailStep_summaries cfg st x,
      List.append_assoc]

/-- Claim C9 (amended): in the Detail tier of Format A, an assistant message
contributes a summary exactly when its extracted text is strictly longer than
20 characters; each kept summary is the first 200 characters of the text with
an ellipsis appended when the original was longer; and only the first 10
summaries are retained. -/
theorem c9_assistant_summaries (s : SessionInfo) (cfg : PrivacyConfig)
    (lines : List (Option TranscriptEntry)) :
    (parseClaudeSessionDetail s (some lines) cfg).assistantSummaries =
      (((assistantTexts cfg lines).filter (fun t => 20 < t.length)).map
        truncateSummary).take 10 := by
  unfold parseClaudeSessionDetail
  dsimp only
  rw [claude_fold_summaries cfg lines]
  simp [emptyDetail]

/-- A 20-character text. -/
def c9Text20 : String := "aaaaaaaaaaaaaaaaaaaa"

/-- A session record for the C9 counterexample. -/
def c9Session : SessionInfo :=
  { sessionId := "c9", project := "/tmp/p", projectName := "p",
    prompts := ["q"], promptTimestamps := [0], timeRange := { start := 0, stop := 0 } }

/-- A session file with a single assistant message whose extracted text has
exactly 20 characters. -/
def c9Lines : List (Option TranscriptEntry) :=
  [ some { timestamp := none
           message := some { role := "assistant", content := .blocks [.text c9Text20],
                             model := none, usage := none }
           toolUseResult := none, gitBranch := none, isSidechain := false
           planContent := none } ]

/-- Claim C9 counterexample: the claim says an assistant message whose text is
at least 20 characters long (in particular exactly 20) contributes a summary,
but the code requires strictly more than 20 characters and drops it. -/
theorem c9_assistant_summaries_cex :
    (extractText (filterMsgContent localConfig (.blocks [.text c9Text20]))).length = 20 ∧
    (parseClaudeSessionDetail c9Session (some c9Lines) localConfig).assistantSummaries = [] := by
  constructor
  · rfl
  · rfl

/-! ## Claim C5: tool calls deduplicated by display name, later wins -/

/-- The tool-call summaries of the function_call events of a codex file, in
file order (before deduplication). -/
def codexFunctionCalls (lines : List (Option CodexLine)) : List ToolCallSummary :=
  lines.filterMap (fun l =>
    match l with
    | none => none
    | some entry =>
      if entry.type = "response_item" ∧ entry.payloadType = some "function_call" ∧
          entry.payloadName.isSome then
        some { name := entry.payloadName.getD ""
               displayName := toolDisplayName (entry.payloadName.getD "") entry.payloadArguments
               category := categorizeToolName (entry.payloadName.getD "")
               target := extractCodexToolTarget (entry.payloadName.getD "") entry.payloadArguments }
      else none)

/-- Key sanity of a tool-call map: keys are distinct and each stored summary
carries its key as display name. -/
def tcKeysOk (m : List (String × ToolCallSummary)) : Prop :=
  (m.map Prod.fst).Nodup ∧ ∀ p ∈ m, p.2.displayName = p.1

/-- Lookup in the tool-call map (JS `Map.get`: first entry with the key). -/
def tcLookup : List (String × ToolCallSummary) → String → Option ToolCallSummary
  | [], _ => none
  | p :: rest, k => if p.1 = k then some p.2 else tcLookup rest k

theorem mapSet_fst (m : List (String × ToolCallSummary)) (k : String)
    (v : ToolCallSummary) :
    (m.map (fun p => if p.1 = k then (k, v) else p)).map Prod.fst = m.map Prod.fst := by
  rw [List.map_map]
  apply List.map_congr_left
  intro p _
  by_cases hp : p.1 = k <;> simp [hp]

theorem mapSet_keysOk (m : List (String × ToolCallSummary)) (k : String)
    (v : ToolCallSummary) (hm : tcKeysOk m) (hv : v.displayName = k) :
    tcKeysOk (mapSet m k v) := by
  unfold mapSet
  split_ifs with hex
  · refine ⟨?_, ?_⟩
    · rw [mapSet_fst]
      exact hm.1
    · intro p hp
      rcases List.mem_map.mp hp with ⟨q, hq, hpq⟩
      by_cases hqk : q.1 = k
      · rw [← hpq]
        simp only [if_pos hqk]
        exact hv
      · rw [← hpq]
        simp only [if_neg hqk]
        exact hm.2 q hq
  · refine ⟨?_, ?_⟩
    · rw [List.map_append, List.nodup_append]
      refine ⟨hm.1, by simp, ?_⟩
      intro a ha hb
      simp only [List.map_cons, List.map_nil, List.mem_singleton] at hb
      subst hb
      rcases List.mem_map.mp ha with ⟨q, hq, hqa⟩
      exact hex (List.any_eq_true.mpr ⟨q, hq, by simp [hqa]⟩)
    · intro p hp
      rcases List.mem_append.mp hp with hp | hp
      · exact hm.2 p hp
      · simp only [List.mem_singleton] at hp
        subst hp
        exact hv

theorem tcLookup_mapSet_self (m : List (String × ToolCallSummary)) (k : String)
    (v : ToolCallSummary) : tcLookup (mapSet m k v) k = some v := by
  unfold mapSet
  split_ifs with hex
  · induction m with
    | nil => simp at hex
    | cons p rest ih =>
      by_cases hp : p.1 = k
      · simp [tcLookup, hp]
      · have hex2 : rest.any (fun q => q.1 = k) = true := by
          simp only [List.any_cons, Bool.or_eq_true, decide_eq_true_eq] at hex
          rcases hex with hex | hex
          · exact absurd hex hp
          · exact hex
        simp only [List.map_cons, if_neg hp, tcLookup]
        exact ih hex2
  · induction m with
    | nil => simp [tcLookup]
    | cons p rest ih =>
      have hp : ¬ p.1 = k := by
        intro hpk
        exact hex (by simp [List.any_cons, hpk])
      have hex2 : ¬ rest.any (fun q => q.1 = k) = true := by
        intro h2
        exact hex (by simp [List.any_cons, h2])
      simp only [List.cons_append, tcLookup, if_neg hp]
      exact ih hex2

theorem tcLookup_mapSet_other (m : List (String × ToolCallSummary)) (k k2 : String)
    (v : ToolCallSummary) (hne : k2 ≠ k) :
    tcLookup (mapSet m k v) k2 = tcLookup m k2 := by
  unfold mapSet
  split_ifs with hex
  · clear hex
    induction m with
    | nil => simp
    | cons p rest ih =>
      by_cases hp : p.1 = k
      · have hk2 : ¬ (k = k2) := fun h => hne h.symm
        have hp2 : ¬ (p.1 = k2) := by
          rw [hp]
          exact hk2
        simp only [List.map_cons, if_pos hp, tcLookup, if_neg hk2, if_neg hp2]
        exact ih
      · by_cases hp2 : p.1 = k2
        · simp only [List.map_cons, if_neg hp, tcLookup, if_pos hp2]
        · simp only [List.map_cons, if_neg hp, tcLookup, if_neg hp2]
          exact ih
  · clear hex
    induction m with
    | nil =>
      have hk2 : ¬ (k = k2) := fun h => hne h.symm
      simp [tcLookup, hk2]
    | cons p rest ih =>
      by_cases hp2 : p.1 = k2
      · simp only [List.cons_append, tcLookup, if_pos hp2]
      · simp only [List.cons_append, tcLookup, if_neg hp2]
        exact ih

theorem getLast?_cons_of_ne_nil {α : Type _} (a : α) {l : List α} (h : l ≠ []) :
    (a :: l).getLast? = l.getLast? := by
  cases l with
  | nil => exact absurd rfl h
  | cons b t => exact List.getLast?_cons_cons

theorem getLast?_ne_none {α : Type _} : ∀ {l : List α}, l ≠ [] → l.getLast? ≠ none
  | [], h => absurd rfl h
  | [_], _ => by simp
  | _ :: b :: t, _ => by
    rw [List.getLast?_cons_cons]
    exact getLast?_ne_none (by simp)

theorem fold_mapSet_lookup (ts : List ToolCallSummary) :
    ∀ (m : List (String × ToolCallSummary)) (k : String),
      tcLookup (ts.foldl (fun m tc => mapSet m tc.displayName tc) m) k =
        ((ts.filter (fun tc => tc.displayName = k)).getLast?).or (tcLookup m k) := by
  induction ts with
  | nil => intro m k; simp
  | cons tc rest ih =>
    intro m k
    rw [List.foldl_cons, ih]
    by_cases htc : tc.displayName = k
    · rw [List.filter_cons_of_pos (by simp [htc])]
      by_cases hrest : rest.filter (fun tc2 => decide (tc2.displayName = k)) = []
      · rw [hrest]
        have hself : tcLookup (mapSet m tc.displayName tc) k = some tc := by
          rw [htc]
          exact tcLookup_mapSet_self m k tc
        simp [hself]
      · rw [getLast?_cons_of_ne_nil tc hrest]
        rcases hx : (rest.filter (fun tc2 => decide (tc2.displayName = k))).getLast?
          with _ | x
        · rw [← List.getLast?_eq_none_iff] at hrest
          exact absurd hx hrest
        · simp [hx]
    · rw [List.filter_cons_of_neg (by simp [htc])]
      rw [tcLookup_mapSet_other m tc.displayName k tc (fun h => htc h.symm)]

theorem mapValues_filter (dn : String) :
    ∀ m : List (String × ToolCallSummary), tcKeysOk m →
      (mapValues m).filter (fun tc => tc.displayName = dn) = (tcLookup m dn).toList := by
  intro m
  induction m with
  | nil => intro _; simp [mapValues, tcLookup]
  | cons p rest ih =>
    intro hok
    have hokr : tcKeysOk rest :=
      ⟨(List.nodup_cons.mp hok.1).2,
       fun q hq => hok.2 q (List.mem_cons_of_mem p hq)⟩
    have hpdn : p.2.displayName = p.1 := hok.2 p (by simp)
    by_cases hp : p.1 = dn
    · have hnone : ∀ q ∈ rest, ¬ q.2.displayName = dn := by
        intro q hq hqdn
        have hq1 : q.1 = dn := by
          rw [← hok.2 q (List.mem_cons_of_mem p hq)]
          exact hqdn
        have hnotin : p.1 ∉ rest.map Prod.fst := (List.nodup_cons.mp hok.1).1
        refine hnotin ?_
        rw [hp, ← hq1]
        exact List.mem_map_of_mem Prod.fst hq
      have hrest : (mapValues rest).filter (fun tc => decide (tc.displayName = dn)) = [] := by
        rw [List.filter_eq_nil]
        intro a ha
        rcases List.mem_map.mp ha with ⟨q, hq, rfl⟩
        simpa using hnone q hq
      have hpd : p.2.displayName = dn := by
        rw [hpdn]
        exact hp
      simp [mapValues, tcLookup, hp, List.filter_cons, hpd, hrest]
      exact fun a x hx => hnone (x, a) hx
    · have hpd : ¬ p.2.displayName = dn := by
        rw [hpdn]
        exact hp
      have hrec := ih hokr
      simp only [mapValues, List.map_cons] at hrec ⊢
      rw [List.filter_cons_of_neg (by simpa using hpd)]
      unfold tcLookup
      rw [if_neg hp]
      exact hrec

theorem codexFunctionCalls_cons (x : Option CodexLine) (xs : List (Option CodexLine)) :
    codexFunctionCalls (x :: xs) = codexFunctionCalls [x] ++ codexFunctionCalls xs := by
  cases x with
  | none => simp [codexFunctionCalls]
  | some entry =>
    by_cases h : entry.type = "response_item" ∧ entry.payloadType = some "function_call" ∧
        entry.payloadName.isSome = true
    · simp [codexFunctionCalls, h]
    · simp [codexFunctionCalls, h]

set_option maxHeartbeats 1600000 in
theorem codexDetailStep_toolset (cfg : PrivacyConfig) (st : CodexDetailState)
    (l : Option CodexLine) :
    (codexDetailStep cfg st l).toolCallSet =
      (codexFunctionCalls [l]).foldl (fun m tc => mapSet m tc.displayName tc)
        st.toolCallSet := by
  unfold codexDetailStep codexFunctionCalls
  cases l with
  | none => simp
  | some entry =>
    cases hu : entry.payloadUsage
    all_goals cases hf : extractCodexFilePath entry.payloadArguments
    all_goals
      simp only [hu, hf]
      try dsimp only
      try split_ifs
      all_goals
        first
        | (simp [List.filterMap_cons]; done)
        | (simp_all [List.filterMap_cons]; done)
        | (exfalso; simp_all)

theorem codex_fold_toolset (cfg : PrivacyConfig) (lines : List (Option CodexLine)) :
    ∀ st : CodexDetailState,
      (lines.foldl (codexDetailStep cfg) st).toolCallSet =
        (codexFunctionCalls lines).foldl (fun m tc => mapSet m tc.displayName tc)
          st.toolCallSet := by
  induction lines with
  | nil => intro st; simp [codexFunctionCalls]
  | cons x xs ih =>
    intro st
    rw [List.foldl_cons, ih, codexDetailStep_toolset cfg st x,
      codexFunctionCalls_cons x xs, List.foldl_append]

theorem fold_mapSet_keysOk (ts : List ToolCallSummary) :
    ∀ m, tcKeysOk m → tcKeysOk (ts.foldl (fun m tc => mapSet m tc.displayName tc) m) := by
  induction ts with
  | nil => exact fun _ h => h
  | cons tc rest ih => exact fun m h => ih _ (mapSet_keysOk m _ tc h rfl)

/-- Claim C5: within one session detail parse, tool invocations with identical
display names collapse into a single `toolCalls` entry, and the retained data
is the last (later) invocation with that display name.  Stated for the codex
detail parser (the claude parser uses the identical `Map.set` keyed by display
name). -/
theorem c5_toolcall_dedup (s : SessionInfo) (cfg : PrivacyConfig)
    (lines : List (Option CodexLine)) (dn : String)
    (hocc : 2 ≤ ((codexFunctionCalls lines).filter
      (fun tc => tc.displayName = dn)).length) :
    (parseCodexSessionDetail s (some lines) cfg).toolCalls.filter
        (fun tc => tc.displayName = dn) =
      (((codexFunctionCalls lines).filter (fun tc => tc.displayName = dn)).getLast?).toList ∧
    ((parseCodexSessionDetail s (some lines) cfg).toolCalls.filter
        (fun tc => tc.displayName = dn)).length = 1 := by
  have hset : (parseCodexSessionDetail s (some lines) cfg).toolCalls =
      mapValues ((codexFunctionCalls lines).foldl
        (fun m tc => mapSet m tc.displayName tc) []) := by
    unfold parseCodexSessionDetail
    dsimp only
    rw [codex_fold_toolset]
  have hok : tcKeysOk ((codexFunctionCalls lines).foldl
      (fun m tc => mapSet m tc.displayName tc) []) :=
    fold_mapSet_keysOk (codexFunctionCalls lines) [] ⟨by simp, by simp⟩
  have hne : (codexFunctionCalls lines).filter (fun tc => decide (tc.displayName = dn)) ≠ [] := by
    intro h0
    rw [h0] at hocc
    simp at hocc
  rw [hset, mapValues_filter dn _ hok, fold_mapSet_lookup]
  rcases hl : ((codexFunctionCalls lines).filter
      (fun tc => decide (tc.displayName = dn))).getLast? with _ | x
  · exact absurd hl (getLast?_ne_none hne)
  · simp [tcLookup, hl]

/-- Arguments of the first C5 witness invocation. -/
def c5Args1 : ToolArgs := [("cmd", ArgVal.str "ls -la")]

/-- Arguments of the second C5 witness invocation (same display name,
different target). -/
def c5Args2 : ToolArgs := [("cmd", ArgVal.str "rm old.txt")]

/-- A codex function_call line for the C5 witness. -/
def c5Line (args : ToolArgs) : CodexLine :=
  { type := "response_item", payloadType := some "function_call"
    payloadRole := none, payloadModel := none, payloadBranch := none
    payloadUsage := none, payloadContent := none
    payloadName := some "exec_command", payloadArguments := some args
    payloadOutput := none, timestamp := none }

/-- A codex file with two exec_command invocations sharing one display name. -/
def c5Lines : List (Option CodexLine) := [some (c5Line c5Args1), some (c5Line c5Args2)]

/-- Session record for the C5 witness. -/
def c5Session : SessionInfo :=
  { sessionId := "c5", project := "/tmp/p", projectName := "p",
    prompts := ["q"], promptTimestamps := [0], timeRange := { start := 0, stop := 0 } }

/-- Witness for C5: two same-display-name invocations collapse into one entry
carrying the later invocation's data. -/
theorem c5_toolcall_dedup_witness :
    2 ≤ ((codexFunctionCalls c5Lines).filter
      (fun tc => tc.displayName = "exec_command")).length ∧
    ((parseCodexSessionDetail c5Session (some c5Lines) localConfig).toolCalls.filter
        (fun tc => tc.displayName = "exec_command") =
      (((codexFunctionCalls c5Lines).filter
        (fun tc => tc.displayName = "exec_command")).getLast?).toList ∧
    ((parseCodexSessionDetail c5Session (some c5Lines) localConfig).toolCalls.filter
        (fun tc => tc.displayName = "exec_command")).length = 1) :=
  ⟨by decide, c5_toolcall_dedup c5Session localConfig c5Lines "exec_command" (by decide)⟩

/-! ## Claim C6: daily partition by the prompt-count threshold 3 -/

theorem parseSessions_eq (sessions : List SessionInfo)
    (fs : SessionInfo → Option (List (Option TranscriptEntry))) (cfg : PrivacyConfig) :
    parseSessions sessions fs cfg =
      ((sessions.filter (fun s => 3 ≤ s.prompts.length)).map
        (fun s => parseClaudeSessionDetail s (fs s) cfg),
       sessions.filter (fun s => s.prompts.length < 3)) := by
  induction sessions with
  | nil => rfl
  | cons s rest ih =>
    unfold parseSessions
    rw [ih]
    by_cases h3 : 3 ≤ s.prompts.length
    · rw [if_pos h3, List.filter_cons_of_pos (by simpa using h3),
        List.filter_cons_of_neg (by simpa using Nat.not_lt.mpr h3)]
      rfl
    · rw [if_neg h3, List.filter_cons_of_neg (by simpa using h3),
        List.filter_cons_of_pos (by simpa using Nat.lt_of_not_le h3)]

/-- Claim C6: in a daily summary build, sessions are partitioned disjointly by
the prompt-count threshold 3: a session with 3 or more prompts (in particular
exactly 3) is fully parsed into the detailed list, a session with fewer than 3
(in particular 2) stays index-only in the short list, and (for distinct
session IDs) no session appears in both lists. -/
theorem c6_daily_partition (sessions : List SessionInfo)
    (fs : SessionInfo → Option (List (Option TranscriptEntry))) (cfg : PrivacyConfig)
    (hids : (sessions.map (fun s => s.sessionId)).Nodup) :
    (parseSessions sessions fs cfg).1 =
      (sessions.filter (fun s => 3 ≤ s.prompts.length)).map
        (fun s => parseClaudeSessionDetail s (fs s) cfg) ∧
    (parseSessions sessions fs cfg).2 =
      sessions.filter (fun s => s.prompts.length < 3) ∧
    (∀ s ∈ sessions, s.prompts.length = 3 →
      parseClaudeSessionDetail s (fs s) cfg ∈ (parseSessions sessions fs cfg).1) ∧
    (∀ s ∈ sessions, s.prompts.length = 2 → s ∈ (parseSessions sessions fs cfg).2) ∧
    (∀ d ∈ (parseSessions sessions fs cfg).1, ∀ s2 ∈ (parseSessions sessions fs cfg).2,
      d.sessionId ≠ s2.sessionId) := by
  rw [parseSessions_eq]
  refine ⟨rfl, rfl, ?_, ?_, ?_⟩
  · intro s hs h3
    exact List.mem_map_of_mem _ (List.mem_filter.mpr ⟨hs, by simp [h3]⟩)
  · intro s hs h2
    exact List.mem_filter.mpr ⟨hs, by simp [h2]⟩
  · intro d hd s2 hs2
    rcases List.mem_map.mp hd with ⟨s1, hs1, rfl⟩
    have hs1m := (List.mem_filter.mp hs1).1
    have hs1c : 3 ≤ s1.prompts.length := by simpa using (List.mem_filter.mp hs1).2
    have hs2m := (List.mem_filter.mp hs2).1
    have hs2c : s2.prompts.length < 3 := by simpa using (List.mem_filter.mp hs2).2
    have hne : s1 ≠ s2 := by
      intro he
      rw [he] at hs1c
      omega
    have hid : (parseClaudeSessionDetail s1 (fs s1) cfg).sessionId = s1.sessionId := by
      have hinfo := parseClaudeSessionDetail_info s1 (fs s1) cfg
      calc (parseClaudeSessionDetail s1 (fs s1) cfg).sessionId
          = (parseClaudeSessionDetail s1 (fs s1) cfg).toSessionInfo.sessionId := rfl
        _ = s1.sessionId := by rw [hinfo]
    rw [hid]
    intro heq
    exact hne (List.inj_on_of_nodup_map hids hs1m hs2m heq)

/-- A session with three prompts for the C6 witness. -/
def c6SessionA : SessionInfo :=
  { sessionId := "c6a", project := "/tmp/p", projectName := "p",
    prompts := ["p1", "p2", "p3"], promptTimestamps := [0, 1, 2],
    timeRange := { start := 0, stop := 2 } }

/-- A session with two prompts for the C6 witness. -/
def c6SessionB : SessionInfo :=
  { sessionId := "c6b", project := "/tmp/p", projectName := "p",
    prompts := ["p1", "p2"], promptTimestamps := [0, 1],
    timeRange := { start := 0, stop := 1 } }

/-- A filesystem view with no session files (daily parse still partitions). -/
def c6Fs : SessionInfo → Option (List (Option TranscriptEntry)) := fun _ => none

/-- Witness for C6 at a concrete pair of sessions (3 prompts and 2 prompts). -/
theorem c6_daily_partition_witness :
    ([c6SessionA, c6SessionB].map (fun s => s.sessionId)).Nodup ∧
    ((parseSessions [c6SessionA, c6SessionB] c6Fs localConfig).1 =
      ([c6SessionA, c6SessionB].filter (fun s => 3 ≤ s.prompts.length)).map
        (fun s => parseClaudeSessionDetail s (c6Fs s) localConfig) ∧
    (parseSessions [c6SessionA, c6SessionB] c6Fs localConfig).2 =
      [c6SessionA, c6SessionB].filter (fun s => s.prompts.length < 3) ∧
    (∀ s ∈ [c6SessionA, c6SessionB], s.prompts.length = 3 →
      parseClaudeSessionDetail s (c6Fs s) localConfig ∈
        (parseSessions [c6SessionA, c6SessionB] c6Fs localConfig).1) ∧
    (∀ s ∈ [c6SessionA, c6SessionB], s.prompts.length = 2 →
      s ∈ (parseSessions [c6SessionA, c6SessionB] c6Fs localConfig).2) ∧
    (∀ d ∈ (parseSessions [c6SessionA, c6SessionB] c6Fs localConfig).1,
      ∀ s2 ∈ (parseSessions [c6SessionA, c6SessionB] c6Fs localConfig).2,
        d.sessionId ≠ s2.sessionId)) :=
  ⟨by decide, c6_daily_partition [c6SessionA, c6SessionB] c6Fs localConfig (by decide)⟩

/-! ## Claim C7: Format A history reader invariants -/

/-- Invariant of the grouping map: parallel prompt/timestamp lists with at
least one element. -/
def groupsOk (m : List (String × HistoryGroup)) : Prop :=
  ∀ p ∈ m, p.2.prompts.length = p.2.timestamps.length ∧ p.2.timestamps ≠ []

theorem groupUpsert_ok (cfg : PrivacyConfig) (m : List (String × HistoryGroup))
    (e : ClaudeHistoryEntry) (hm : groupsOk m) : groupsOk (groupUpsert cfg m e) := by
  unfold groupUpsert
  split_ifs with hex
  · intro p hp
    rcases List.mem_map.mp hp with ⟨q, hq, hpq⟩
    by_cases hqk : q.1 = e.sessionId
    · rw [← hpq]
      simp only [if_pos hqk]
      have hq2 := hm q hq
      refine ⟨?_, by simp⟩
      simp [hq2.1]
    · rw [← hpq]
      simp only [if_neg hqk]
      exact hm q hq
  · intro p hp
    rcases List.mem_append.mp hp with hp | hp
    · exact hm p hp
    · simp only [List.mem_singleton] at hp
      subst hp
      exact ⟨by simp, by simp⟩

theorem insertByStart_perm (x : SessionInfo) (l : List SessionInfo) :
    List.Perm (insertByStart x l) (x :: l) := by
  induction l with
  | nil => exact List.Perm.refl _
  | cons y ys ih =>
    unfold insertByStart
    split_ifs with h
    · exact List.Perm.refl _
    · exact (ih.cons y).trans (List.Perm.swap x y ys)

theorem sortByStart_perm (l : List SessionInfo) : List.Perm (sortByStart l) l := by
  induction l with
  | nil => exact List.Perm.refl _
  | cons x xs ih =>
    show List.Perm (insertByStart x (sortByStart xs)) (x :: xs)
    exact (insertByStart_perm x (sortByStart xs)).trans (ih.cons x)

/-- Claim C7: every session built by the Format A history reader has
`prompts` and `promptTimestamps` of equal length, its range start is the
minimum of the prompt timestamps, its range end the maximum, and
start ≤ end. -/
theorem c7_history_session_invariants
    (content : Option (List (Option ClaudeHistoryEntry)))
    (fromDay toDay : Int) (cfg : PrivacyConfig) :
    ∀ s ∈ readClaudeHistory content fromDay toDay cfg,
      s.prompts.length = s.promptTimestamps.length ∧
      s.timeRange.start = listMin s.promptTimestamps ∧
      s.timeRange.stop = listMax s.promptTimestamps ∧
      s.timeRange.start ≤ s.timeRange.stop := by
  intro s hs
  cases content with
  | none => simp [readClaudeHistory] at hs
  | some lines =>
    unfold readClaudeHistory at hs
    dsimp only at hs
    rw [(sortByStart_perm _).mem_iff] at hs
    rcases List.mem_map.mp hs with ⟨p, hp, rfl⟩
    have hok : groupsOk ((lines.filterMap (fun l =>
        match l with
        | none => none
        | some e =>
          if toLocalDate e.timestamp < fromDay ∨ toDay < toLocalDate e.timestamp then none
          else if isProjectExcluded e.project cfg then none
          else some e)).foldl (groupUpsert cfg) []) :=
      foldl_invariant (groupUpsert cfg) groupsOk
        (fun m e hm => groupUpsert_ok cfg m e hm) _ [] (by intro p hp; simp at hp)
    have hpok := hok p hp
    refine ⟨hpok.1, rfl, rfl, ?_⟩
    exact listMin_le p.2.timestamps (listMax p.2.timestamps) (listMax_mem _ hpok.2)

/-- A two-entry history file for the C7 witness (one session, two prompts). -/
def c7Lines : List (Option ClaudeHistoryEntry) :=
  [ some { display := "hello", timestamp := 100, project := "/tmp/proj", sessionId := "s1" },
    some { display := "again", timestamp := 200, project := "/tmp/proj", sessionId := "s1" } ]

/-- The session the C7 witness history yields. -/
def c7Expected : SessionInfo :=
  { sessionId := "s1", project := "/tmp/proj", projectName := "proj",
    prompts := ["hello", "again"], promptTimestamps := [100, 200],
    timeRange := { start := 100, stop := 200 } }

/-- Witness for C7 at a concrete history file. -/
theorem c7_history_session_invariants_witness :
    c7Expected ∈ readClaudeHistory (some c7Lines) 0 1 localConfig ∧
    (c7Expected.prompts.length = c7Expected.promptTimestamps.length ∧
     c7Expected.timeRange.start = listMin c7Expected.promptTimestamps ∧
     c7Expected.timeRange.stop = listMax c7Expected.promptTimestamps ∧
     c7Expected.timeRange.start ≤ c7Expected.timeRange.stop) :=
  ⟨by decide,
   c7_history_session_invariants (some c7Lines) 0 1 localConfig c7Expected (by decide)⟩

/-! ## Claim C1: turn_context model and the streamed transcript -/

/-- Recognizer for a turn_context line carrying a model — the only line kind
that updates the running model of the codex stream and the session model of
the codex peek. -/
def isTurnContextModel : Option CodexLine → Bool
  | some raw => raw.type == "turn_context" && raw.payloadModel.isSome
  | none => false

/-- An assistant response_item message line for the C1 inputs. -/
def c1MsgLine : CodexLine :=
  { type := "response_item", payloadType := some "message"
    payloadRole := some "assistant", payloadModel := none, payloadBranch := none
    payloadUsage := none
    payloadContent := some [{ ty := some "output_text", tx := some "hello" }]
    payloadName := none, payloadArguments := none, payloadOutput := none
    timestamp := some "t1" }

/-- A turn_context line declaring the model, for the C1 inputs. -/
def c1TcLine : CodexLine :=
  { type := "turn_context", payloadType := none, payloadRole := none
    payloadModel := some "gpt-5", payloadBranch := none, payloadUsage := none
    payloadContent := none, payloadName := none, payloadArguments := none
    payloadOutput := none, timestamp := some "t2" }

/-- A codex file whose message precedes the turn_context in file order. -/
def c1Lines : List (Option CodexLine) := [some c1MsgLine, some c1TcLine]

/-- Claim C1 counterexample: in a Format B session whose assistant message
precedes the `turn_context` declaring model "gpt-5", the claim predicts the
streamed entry carries "gpt-5"; the code streams it with no model. -/
theorem c1_stream_model_cex :
    (streamCodexTranscript (some c1Lines) localConfig).map
        (fun e => e.message.map (fun msg => msg.model)) = [some none] ∧
    (some (none : Option String) : Option (Option String)) ≠ some (some "gpt-5") := by
  constructor
  · rfl
  · simp

theorem streamCodexAux_noTC_append (cfg : PrivacyConfig) (l2 : List (Option CodexLine)) :
    ∀ (l1 : List (Option CodexLine)) (cur : Option String),
      (∀ l ∈ l1, isTurnContextModel l = false) →
      streamCodexAux cfg cur (l1 ++ l2) =
        streamCodexAux cfg cur l1 ++ streamCodexAux cfg cur l2 := by
  intro l1
  induction l1 with
  | nil => intro cur _; simp [streamCodexAux]
  | cons x xs ih =>
    intro cur hno
    have hx : isTurnContextModel x = false := hno x (by simp)
    have hxs : ∀ l ∈ xs, isTurnContextModel l = false :=
      fun l hl => hno l (List.mem_cons_of_mem x hl)
    cases x with
    | none =>
      rw [List.cons_append]
      show streamCodexAux cfg cur (xs ++ l2) =
        streamCodexAux cfg cur (none :: xs) ++ streamCodexAux cfg cur l2
      rw [show streamCodexAux cfg cur (none :: xs) = streamCodexAux cfg cur xs from rfl]
      exact ih cur hxs
    | some raw =>
      have hcond : ¬ (raw.type = "turn_context" ∧ raw.payloadModel.isSome = true) := by
        intro hc
        rw [isTurnContextModel] at hx
        simp [hc.1, hc.2] at hx
      rw [List.cons_append]
      simp only [streamCodexAux]
      rw [if_neg hcond, if_neg hcond]
      dsimp only [filterTranscriptEntry]
      split_ifs <;> simp [ih cur hxs]

theorem streamCodexAux_models (cfg : PrivacyConfig) :
    ∀ (lines : List (Option CodexLine)) (cur : Option String),
      (∀ l ∈ lines, isTurnContextModel l = false) →
      ∀ e ∈ streamCodexAux cfg cur lines, ∀ msg, e.message = some msg →
        msg.model = cur := by
  intro lines
  induction lines with
  | nil =>
    intro cur _ e he
    simp [streamCodexAux] at he
  | cons x xs ih =>
    intro cur hno e he msg hmsg
    have hxs : ∀ l ∈ xs, isTurnContextModel l = false :=
      fun l hl => hno l (List.mem_cons_of_mem x hl)
    cases x with
    | none =>
      rw [show streamCodexAux cfg cur (none :: xs) = streamCodexAux cfg cur xs from rfl] at he
      exact ih cur hxs e he msg hmsg
    | some raw =>
      have hx : isTurnContextModel (some raw) = false := hno _ (by simp)
      have hcond : ¬ (raw.type = "turn_context" ∧ raw.payloadModel.isSome = true) := by
        intro hc
        rw [isTurnContextModel] at hx
        simp [hc.1, hc.2] at hx
      simp only [streamCodexAux] at he
      rw [if_neg hcond] at he
      dsimp only [filterTranscriptEntry] at he
      split_ifs at he
      all_goals
        first
        | exact ih cur hxs e he msg hmsg
        | (rcases List.mem_cons.mp he with rfl | he2
           · simp only [Option.map_some', Option.map_none', Option.some.injEq] at hmsg
             first
             | (subst hmsg; rfl)
             | exact Option.noConfusion hmsg
           · exact ih cur hxs e he2 msg hmsg)

set_option maxHeartbeats 1000000 in
theorem codexPeekStep_model_noTC (st : SessionMeta) (l : Option CodexLine)
    (h : isTurnContextModel l = false) : (codexPeekStep st l).model = st.model := by
  unfold codexPeekStep
  cases l with
  | none => rfl
  | some entry =>
    have hcond : ¬ (entry.type = "turn_context" ∧ entry.payloadModel.isSome = true) := by
      intro hc
      rw [isTurnContextModel] at h
      simp [hc.1, hc.2] at h
    cases hu : entry.payloadUsage
    all_goals
      simp only [hu]
      try dsimp only
      split_ifs
      all_goals first | rfl | (exfalso; exact hcond (by tauto)) | (exfalso; simp_all)

set_option maxHeartbeats 1000000 in
theorem codexPeekStep_model_keep (st : SessionMeta) (l : Option CodexLine)
    (h : jsFalsyStr st.model = false) :
    (codexPeekStep st l).model = st.model ∧ jsFalsyStr (codexPeekStep st l).model = false := by
  unfold codexPeekStep
  cases l with
  | none => exact ⟨rfl, h⟩
  | some entry =>
    cases hu : entry.payloadUsage
    all_goals
      simp only [hu]
      try dsimp only
      split_ifs
      all_goals first | exact ⟨rfl, h⟩ | (exfalso; simp_all)

theorem codexPeek_fold_model_noTC (lines : List (Option CodexLine)) :
    ∀ st : SessionMeta, (∀ l ∈ lines, isTurnContextModel l = false) →
      (lines.foldl codexPeekStep st).model = st.model := by
  induction lines with
  | nil => exact fun _ _ => rfl
  | cons x xs ih =>
    intro st hno
    rw [List.foldl_cons, ih _ (fun l hl => hno l (List.mem_cons_of_mem x hl)),
      codexPeekStep_model_noTC st x (hno x (by simp))]

theorem codexPeek_fold_model_keep (lines : List (Option CodexLine)) :
    ∀ st : SessionMeta, jsFalsyStr st.model = false →
      (lines.foldl codexPeekStep st).model = st.model := by
  induction lines with
  | nil => exact fun _ _ => rfl
  | cons x xs ih =>
    intro st h
    rw [List.foldl_cons, ih _ (codexPeekStep_model_keep st x h).2,
      (codexPeekStep_model_keep st x h).1]

set_option maxHeartbeats 1000000 in
theorem codexPeekStep_tc_model (st : SessionMeta) (tc : CodexLine) (m : String)
    (htc : tc.type = "turn_context") (htcm : tc.payloadModel = some m)
    (hst : st.model = none) :
    (codexPeekStep st (some tc)).model = some m := by
  unfold codexPeekStep
  cases hu : tc.payloadUsage
  all_goals
    simp only [hu, htc, htcm]
    try dsimp only
    split_ifs
    all_goals first | (simp_all [jsFalsyStr]; done) | (exfalso; simp_all [jsFalsyStr])

/-- Claim C1 (amended): for a Format B session whose model-bearing
`turn_context` event (model `m`, nonempty) appears after the lines of `pre`
and before the lines of `post` (neither containing a model-bearing
turn_context): the session-level model reported by the Peek tier is `m`
regardless of where the event sits in the byte stream, but in the streamed
transcript the running model is applied forward only — entries emitted from
`pre` (preceding the event in file order) carry no model, while entries
emitted from `post` carry `m`. -/
theorem c1_turn_context_model (s : SessionInfo) (cfg : PrivacyConfig)
    (pre post : List (Option CodexLine)) (tc : CodexLine) (m : String)
    (htc : tc.type = "turn_context") (htcm : tc.payloadModel = some m) (hm : m ≠ "")
    (hpre : ∀ l ∈ pre, isTurnContextModel l = false)
    (hpost : ∀ l ∈ post, isTurnContextModel l = false) :
    (peekCodexSession s (some (pre ++ some tc :: post))).model = some m ∧
    streamCodexTranscript (some (pre ++ some tc :: post)) cfg =
      streamCodexAux cfg none pre ++ streamCodexAux cfg (some m) post ∧
    (∀ e ∈ streamCodexAux cfg none pre, ∀ msg, e.message = some msg →
      msg.model = none) ∧
    (∀ e ∈ streamCodexAux cfg (some m) post, ∀ msg, e.message = some msg →
      msg.model = some m) := by
  refine ⟨?_, ?_, streamCodexAux_models cfg pre none hpre,
    streamCodexAux_models cfg post (some m) hpost⟩
  · show ((pre ++ some tc :: post).foldl codexPeekStep (emptyMeta s)).model = some m
    rw [List.foldl_append, List.foldl_cons]
    have h1 : (pre.foldl codexPeekStep (emptyMeta s)).model = none :=
      codexPeek_fold_model_noTC pre (emptyMeta s) hpre
    have h2 : (codexPeekStep (pre.foldl codexPeekStep (emptyMeta s)) (some tc)).model =
        some m :=
      codexPeekStep_tc_model _ tc m htc htcm h1
    have h3 : jsFalsyStr (codexPeekStep (pre.foldl codexPeekStep (emptyMeta s))
        (some tc)).model = false := by
      rw [h2]
      simp [jsFalsyStr, hm]
    rw [codexPeek_fold_model_keep post _ h3, h2]
  · show streamCodexAux cfg none (pre ++ some tc :: post) = _
    rw [streamCodexAux_noTC_append cfg (some tc :: post) pre none hpre]
    have htcstep : streamCodexAux cfg none (some tc :: post) =
        streamCodexAux cfg (some m) post := by
      conv_lhs => unfold streamCodexAux
      rw [if_pos ⟨htc, by rw [htcm]; rfl⟩, htcm]
    rw [htcstep]

/-- Witness for C1 (amended) at the concrete two-line inputs: one message
before the turn_context, one after. -/
theorem c1_turn_context_model_witness :
    (peekCodexSession c9Session (some ([some c1MsgLine] ++ some c1TcLine ::
        [some c1MsgLine]))).model = some "gpt-5" ∧
    streamCodexTranscript (some ([some c1MsgLine] ++ some c1TcLine ::
        [some c1MsgLine])) localConfig =
      streamCodexAux localConfig none [some c1MsgLine] ++
        streamCodexAux localConfig (some "gpt-5") [some c1MsgLine] ∧
    (∀ e ∈ streamCodexAux localConfig none [some c1MsgLine], ∀ msg,
      e.message = some msg → msg.model = none) ∧
    (∀ e ∈ streamCodexAux localConfig (some "gpt-5") [some c1MsgLine], ∀ msg,
      e.message = some msg → msg.model = some "gpt-5") :=
  c1_turn_context_model c9Session localConfig [some c1MsgLine] [some c1MsgLine]
    c1TcLine "gpt-5" rfl rfl (by decide) (by decide) (by decide)

end AgentOptic
